import Mathlib

/-!
Verification development for the audiobookshelf download CLI.

This file gives a shallow embedding, in Lean 4, of the parts of the
repository that the specification's claims are about:

* the metadata normalizers of src/server_diff.py
  (ServerDiff._normalize_title, ServerDiff._normalize_author,
  ServerDiff._normalize_single_author, ServerDiff._extract_all_authors),
* the multi-tier matcher ServerDiff.compare_servers,
* the connectivity / fetch layer of src/audiobookshelf_downloader.py
  (get_libraries, get_library_items pagination, download_file,
  download_selected_books).

Modelling conventions.

Strings are modelled over the ASCII fragment; unicodedata.normalize('NFKD', s)
is the identity on that fragment, so it is embedded as the identity map, and
Python's lower() / \w / \s agree with the ASCII functions used here.  Python's
re-module regular expressions are embedded through a small backtracking
matching engine (RE below) whose preference order (greedy repetition and
option, ordered alternation, leftmost match) is the preference order of the
Python engine, so each source pattern is transcribed constructor by
constructor.  Numeric metadata (duration seconds, size bytes) is modelled with
Nat at the adapter boundary described in section 9 of the specification;
Python's float round-half-to-even on exact ratios is modelled exactly on
rationals.  Python dicts keyed by item id are modelled as lists of items with
pairwise distinct ids (a Nodup hypothesis where a theorem needs it); the
iteration order of Python sets is unspecified, and the embedding fixes the
catalog order for those iterations.
-/

/-! ## Character classes (ASCII fragment of Python's str / re semantics) -/

/-- Python's whitespace class \s restricted to ASCII. -/
def isWs (c : Char) : Bool :=
  c == ' ' || c == '\t' || c == '\n' || c == '\r' || c == Char.ofNat 11 || c == Char.ofNat 12

/-- Python's word class \w restricted to ASCII: letters, digits, underscore. -/
def isWordC (c : Char) : Bool :=
  c.isAlphanum || c == '_'

/-! ## A small backtracking regular-expression engine

Each Python pattern used by the source is transcribed into an RE value.
The matcher explores alternatives in exactly the order of the Python engine:
repetition and option are greedy (longer / present first), alternation is
tried left to right, and the first overall success is kept. -/

/-- Regular expressions: the constructors cover exactly what the source
patterns use.  star and plus-like repetition only occur over single-character
classes in the source, so repetition is over a character predicate. -/
inductive RE where
  | eps : RE
  | lit : List Char → RE
  | cls : (Char → Bool) → RE
  | star : (Char → Bool) → RE
  | opt : RE → RE
  | alt : RE → RE → RE
  | seq : RE → RE → RE
  | bnd : RE
  | eos : RE

/-- Word boundary test: Python's \b between the previous character and the
next character. -/
def isBoundaryAt (prev : Option Char) (next : Option Char) : Bool :=
  let pw := match prev with
    | some c => isWordC c
    | none => false
  let nw := match next with
    | some c => isWordC c
    | none => false
  pw != nw

/-- Greedy matching of a character-class star: try the longest run first,
then give characters back one at a time (Python's backtracking order). -/
def starRun {β : Type} (p : Char → Bool) (k : Option Char → List Char → Option β) :
    Option Char → List Char → Option β
  | prev, [] => k prev []
  | prev, c :: cs =>
    if p c then (starRun p k (some c) cs) <|> k prev (c :: cs)
    else k prev (c :: cs)

/-- Match a literal character sequence. -/
def litMatch {β : Type} : List Char → Option Char → List Char →
    (Option Char → List Char → Option β) → Option β
  | [], prev, s, k => k prev s
  | _ :: _, _, [], _ => none
  | c :: cs, _, d :: ds, k =>
    if c = d then litMatch cs (some d) ds k else none

/-- The matcher, in continuation-passing style; prev is the character just
before the current position (for \b). -/
def reMatch {β : Type} : RE → Option Char → List Char →
    (Option Char → List Char → Option β) → Option β
  | .eps, prev, s, k => k prev s
  | .lit l, prev, s, k => litMatch l prev s k
  | .cls p, _, s, k =>
    match s with
    | c :: cs => if p c then k (some c) cs else none
    | [] => none
  | .star p, prev, s, k => starRun p k prev s
  | .opt r, prev, s, k => (reMatch r prev s k) <|> k prev s
  | .alt r1 r2, prev, s, k => (reMatch r1 prev s k) <|> reMatch r2 prev s k
  | .seq r1 r2, prev, s, k => reMatch r1 prev s (fun p2 s2 => reMatch r2 p2 s2 k)
  | .bnd, prev, s, k => if isBoundaryAt prev s.head? then k prev s else none
  | .eos, prev, s, k =>
    match s with
    | [] => k prev []
    | _ :: _ => none

/-- Match the pattern at the current position, returning the rest of the
input after the (preference-first) match. -/
def reMatchRem (r : RE) (prev : Option Char) (s : List Char) : Option (List Char) :=
  reMatch r prev s (fun _ rest => some rest)

/-- re.sub with replacement function f: scan left to right, replace each
non-overlapping match, continue after it (on the original characters, so \b
context is the original previous character).  Every source pattern matches at
least one character, so each step consumes input; the fuel argument (spent
one unit per step, supplied as the input length) only makes the recursion
structural. -/
def reSubAllGo (r : RE) (f : List Char → List Char) : Nat → Option Char → List Char → List Char
  | 0, _, s => s
  | _ + 1, _, [] => []
  | fuel + 1, prev, c :: cs =>
    match reMatchRem r prev (c :: cs) with
    | some rest =>
      if rest.length < (c :: cs).length then
        let m := (c :: cs).take ((c :: cs).length - rest.length)
        f m ++ reSubAllGo r f fuel m.getLast? rest
      else
        c :: reSubAllGo r f fuel (some c) cs
    | none => c :: reSubAllGo r f fuel (some c) cs

def reSubAll (r : RE) (f : List Char → List Char) (prev : Option Char) (s : List Char) :
    List Char :=
  reSubAllGo r f s.length prev s

/-- re.sub with empty replacement. -/
def removeAll (r : RE) (s : List Char) : List Char :=
  reSubAll r (fun _ => []) none s

/-- Sequence a list of REs. -/
def reSeq (rs : List RE) : RE :=
  rs.foldr RE.seq .eps

/-- An RE from a string literal. -/
def litS (s : String) : RE :=
  .lit s.data

def wsStar : RE := .star isWs

def wsPlus : RE := .seq (.cls isWs) (.star isWs)

def digitsPlus : RE := .seq (.cls Char.isDigit) (.star Char.isDigit)

/-! ## String helpers mirroring Python str methods -/

/-- Python str.strip(): drop whitespace from both ends. -/
def stripWs (s : List Char) : List Char :=
  ((s.dropWhile isWs).reverse.dropWhile isWs).reverse

/-- Python s.split(sep) for a single-character separator. -/
def splitOnChar (sep : Char) : List Char → List (List Char)
  | [] => [[]]
  | c :: cs =>
    if c = sep then [] :: splitOnChar sep cs
    else
      match splitOnChar sep cs with
      | [] => [[c]]
      | p :: ps => (c :: p) :: ps

/-- Does s start with the given sequence? -/
def startsWithSeq : List Char → List Char → Bool
  | [], _ => true
  | _ :: _, [] => false
  | c :: cs, d :: ds => c = d && startsWithSeq cs ds

/-- Substring containment (Python's `sub in s`). -/
def containsSeq (sub : List Char) : List Char → Bool
  | [] => startsWithSeq sub []
  | c :: cs => startsWithSeq sub (c :: cs) || containsSeq sub cs

/-- Python s.split(sep) for a multi-character separator sep = c0 :: sepRest;
fuel (the input length) makes the recursion structural. -/
def splitOnSeqGo (c0 : Char) (sepRest : List Char) : Nat → List Char → List Char → List (List Char)
  | 0, acc, s => [acc.reverse ++ s]
  | _ + 1, acc, [] => [acc.reverse]
  | fuel + 1, acc, c :: cs =>
    if startsWithSeq (c0 :: sepRest) (c :: cs) then
      acc.reverse :: splitOnSeqGo c0 sepRest fuel [] (cs.drop sepRest.length)
    else
      splitOnSeqGo c0 sepRest fuel (c :: acc) cs

def splitOnSeq (sep : List Char) (s : List Char) : List (List Char) :=
  match sep with
  | [] => [s]
  | c0 :: sepRest => splitOnSeqGo c0 sepRest s.length [] s

/-- Python s.split() with no argument: whitespace-separated words, empties
dropped; fuel (the input length) makes the recursion structural. -/
def wordsOfGo : Nat → List Char → List (List Char)
  | 0, _ => []
  | _ + 1, [] => []
  | fuel + 1, c :: cs =>
    if isWs c then wordsOfGo fuel cs
    else
      (c :: cs.takeWhile fun d => !isWs d) ::
        wordsOfGo fuel (cs.dropWhile fun d => !isWs d)

def wordsOf (s : List Char) : List (List Char) :=
  wordsOfGo s.length s

/-- Python ' '.join(words). -/
def joinSpace (ws : List (List Char)) : List Char :=
  (List.intersperse [' '] ws).flatten

/-- Python ' '.join(s.split()): collapse whitespace and trim. -/
def collapseWs (s : List Char) : List Char :=
  joinSpace (wordsOf s)

/-! ## Character canonicalization (server_diff.py lines 78-86 / 167-174)

unicodedata.normalize('NFKD', s) is the identity on the modelled ASCII
fragment, so only the lowercase map and the three character-replacement
substitutions appear; each of those re.sub calls is a per-character map
over pairwise disjoint code-point sets, so they compose characterwise. -/

/-- Replace the Unicode space variants of r'[  -​⁠﻿]'
with an ASCII space. -/
def replaceSpaceVariant (c : Char) : Char :=
  if c.toNat = 0xA0 || (0x2000 ≤ c.toNat && c.toNat ≤ 0x200B) || c.toNat = 0x2060
      || c.toNat = 0xFEFF then ' ' else c

/-- Replace the dash variants of r'[‐-―−]' with '-'. -/
def replaceDashVariant (c : Char) : Char :=
  if (0x2010 ≤ c.toNat && c.toNat ≤ 0x2015) || c.toNat = 0x2212 then '-' else c

/-- Replace the quote variants of r'[‘’“”]' with an
ASCII apostrophe (title normalization only). -/
def replaceQuoteVariant (c : Char) : Char :=
  if c.toNat = 0x2018 || c.toNat = 0x2019 || c.toNat = 0x201C || c.toNat = 0x201D then
    Char.ofNat 39
  else c

/-! ## Title normalization (ServerDiff._normalize_title, server_diff.py 72-159) -/

/-- r'\s*\([^)]*edition[^)]*\)\s*$' (line 102). -/
def editionParenRE : RE :=
  reSeq [wsStar, litS "(", .star (fun c => c != ')'), litS "edition",
    .star (fun c => c != ')'), litS ")", wsStar, .eos]

/-- r'\s*\([^)]*version[^)]*\)\s*$' (line 103). -/
def versionParenRE : RE :=
  reSeq [wsStar, litS "(", .star (fun c => c != ')'), litS "version",
    .star (fun c => c != ')'), litS ")", wsStar, .eos]

/-- r'\s*\([^)]*\)\s*$' (line 127). -/
def trailingParenRE : RE :=
  reSeq [wsStar, litS "(", .star (fun c => c != ')'), litS ")", wsStar, .eos]

/-- r'\s*\bW\s+\d+\b\s*' for a token word W (lines 130, 131, 133, 135, 136). -/
def tokenNumRE (w : String) : RE :=
  reSeq [wsStar, .bnd, litS w, wsPlus, digitsPlus, .bnd, wsStar]

/-- r'\s*\bvol\.?\s+\d+\b\s*' (line 134). -/
def volNumRE : RE :=
  reSeq [wsStar, .bnd, litS "vol", .opt (litS "."), wsPlus, digitsPlus, .bnd, wsStar]

/-- r'\s*#\d+\b\s*' (line 132). -/
def hashNumRE : RE :=
  reSeq [wsStar, litS "#", digitsPlus, .bnd, wsStar]

/-- r'\s*-\s*[^-]*\bseries\b[^-]*$' (line 140). -/
def seriesTailRE : RE :=
  reSeq [wsStar, litS "-", wsStar, .star (fun c => c != '-'), .bnd, litS "series",
    .bnd, .star (fun c => c != '-'), .eos]

/-- Newline-separated titles (lines 90-97): keep the first nonempty stripped
line; if every line is blank the title is left unchanged, as in the source. -/
def firstLineStep (t : List Char) : List Char :=
  if t.contains '\n' then
    match ((splitOnChar '\n' t).filterMap fun l =>
        let l2 := stripWs l
        if l2.isEmpty then none else some l2).head? with
    | some l => l
    | none => t
  else t

/-- Subtitle-separated-by-colon step (lines 107-108). -/
def colonStep (t : List Char) : List Char :=
  if t.contains ':' then stripWs (t.takeWhile fun c => c != ':') else t

def subtitleKeywords : List (List Char) :=
  ["story".data, "novel".data, "series".data, "tale".data, "book".data, "edition".data]

/-- Subtitle-separated-by-" - " step (lines 114-123). -/
def dashSubtitleStep (t : List Char) : List Char :=
  if containsSeq " - ".data t then
    match splitOnSeq " - ".data t with
    | [p0, p1] =>
      let secondPart := stripWs p1
      if decide (2 ≤ (wordsOf p1).length)
          || subtitleKeywords.any (fun kw => containsSeq kw secondPart) then
        stripWs p0
      else t
    | _ => t
  else t

/-- r'^[A-Za-z\.\s]+ - (?:[A-Za-z\s]+ - )?(.+)$' applied with re.match
(lines 145-148); on success the title becomes group(1).

The leading class admits letters, dots and whitespace but not '-', so the
first separator is forced; the optional middle group likewise.  (.+)$
requires a nonempty newline-free remainder. -/
def authorInTitleStep (t : List Char) : List Char :=
  let cls1 : Char → Bool := fun c => c.isAlpha || c == '.' || isWs c
  let cls2 : Char → Bool := fun c => c.isAlpha || isWs c
  let good : List Char → Bool := fun r => !r.isEmpty && !r.contains '\n'
  match reMatchRem (reSeq [.cls cls1, .star cls1, litS " - "]) none t with
  | none => t
  | some rest1 =>
    match reMatchRem (reSeq [.cls cls2, .star cls2, litS " - "]) none rest1 with
    | some rest2 => if good rest2 then rest2 else if good rest1 then rest1 else t
    | none => if good rest1 then rest1 else t

/-- r'^\s*(the|a|an)\s+' (line 151): strip one leading article. -/
def leadingArticleStep (t : List Char) : List Char :=
  match reMatchRem
      (reSeq [wsStar, .alt (litS "the") (.alt (litS "a") (litS "an")), wsPlus]) none t with
  | some rest => rest
  | none => t

/-- ServerDiff._normalize_title over the character-list model. -/
def normTitleL (t0 : List Char) : List Char :=
  let t := t0.map fun c => replaceQuoteVariant (replaceDashVariant (replaceSpaceVariant c.toLower))
  let t := firstLineStep t
  let t := removeAll editionParenRE t
  let t := removeAll versionParenRE t
  let t := colonStep t
  let t := dashSubtitleStep t
  let t := removeAll trailingParenRE t
  let t := removeAll (tokenNumRE "book") t
  let t := removeAll (tokenNumRE "bk") t
  let t := removeAll hashNumRE t
  let t := removeAll (tokenNumRE "volume") t
  let t := removeAll volNumRE t
  let t := removeAll (tokenNumRE "part") t
  let t := removeAll (tokenNumRE "episode") t
  let t := removeAll seriesTailRE t
  let t := authorInTitleStep t
  let t := leadingArticleStep t
  let t := t.filter fun c => isWordC c || isWs c
  collapseWs t

/-- ServerDiff._normalize_title. -/
def normalizeTitle (s : String) : String :=
  ⟨normTitleL s.data⟩

/-! ## Author normalization (ServerDiff._normalize_author, server_diff.py 161-282) -/

/-- r'\s*(jr\.?|sr\.?|iii?|iv)\s*$' (line 177). -/
def suffixRE : RE :=
  reSeq [wsStar,
    .alt (reSeq [litS "jr", .opt (litS ".")])
      (.alt (reSeq [litS "sr", .opt (litS ".")])
        (.alt (reSeq [litS "ii", .opt (litS "i")]) (litS "iv"))),
    wsStar, .eos]

def contributionWords : List (List Char) :=
  ["foreword".data, "foreward".data, "introduction".data, "preface".data, "afterword".data]

/-- Multi-author resolution (lines 179-237). -/
def multiAuthorStep (a : List Char) : List Char :=
  if a.contains '/' then
    stripWs (a.takeWhile fun c => c != '/')
  else if a.contains ',' then
    match splitOnChar ',' a with
    | [p0, p1] =>
      let firstPart := stripWs p0
      let secondPart := stripWs p1
      if contributionWords.any (fun w => containsSeq w secondPart) then
        firstPart
      else if decide ((wordsOf secondPart).length ≤ 2)
          && decide ((wordsOf firstPart).length = 1)
          && !(["adaptation".data, "narrator".data, "reader".data].any
                fun w => containsSeq w secondPart)
          && !(["author".data, "writer".data].any fun w => containsSeq w firstPart) then
        secondPart ++ ' ' :: firstPart
      else
        if (decide (firstPart = "chrissie wellington".data)
              || decide (secondPart = "chrissie wellington".data))
            && (decide (firstPart = "lance armstrong".data)
              || decide (secondPart = "lance armstrong".data)) then
          "chrissie wellington".data
        else firstPart
    | p0 :: _ :: _ => stripWs p0
    | _ => a
  else a

/-- r'\s*-\s*translator\s+(.+)$' with re.search (line 244): the result is
group(1) when the search succeeds.  The helper mimics \s+(.+)$ after the
"translator" literal, including the greedy give-back of trailing
whitespace when nothing else follows. -/
def translatorTail (r : List Char) : Option (List Char) :=
  let w := r.takeWhile isWs
  let rest := r.dropWhile isWs
  if w.isEmpty then none
  else if !rest.isEmpty then
    if rest.contains '\n' then none else some rest
  else if decide (2 ≤ w.length) && decide (w.getLast? ≠ some '\n') then
    some (w.drop (w.length - 1))
  else none

def translatorRE : RE :=
  reSeq [wsStar, litS "-", wsStar, litS "translator"]

def translatorSearch : Option Char → List Char → Option (List Char)
  | prev, [] =>
    match reMatchRem translatorRE prev [] with
    | some r => translatorTail r
    | none => none
  | prev, c :: cs =>
    match reMatchRem translatorRE prev (c :: cs) with
    | some r =>
      match translatorTail r with
      | some g => some g
      | none => translatorSearch (some c) cs
    | none => translatorSearch (some c) cs

/-- r'\s*-\s*(adaptation|narrator|reader|performed by).*$' (line 249). -/
def creditsRE : RE :=
  reSeq [wsStar, litS "-", wsStar,
    .alt (litS "adaptation") (.alt (litS "narrator") (.alt (litS "reader") (litS "performed by"))),
    .star (fun c => c != '\n'), .eos]

/-- Lines 253-257: the four publisher regexes 'audiobooks?!?', 'audio books?',
'recorded books?', 'blackstone audio' searched with re.search are equivalent
to these four substring tests. -/
def publisherHit (a : List Char) : Bool :=
  containsSeq "audiobook".data a || containsSeq "audio book".data a
    || containsSeq "recorded book".data a || containsSeq "blackstone audio".data a

/-- r'\b[A-Za-z]\.?\s*[A-Za-z]\.?\s*[A-Za-z]?\.?\b' (line 274). -/
def initialsRE : RE :=
  reSeq [.bnd, .cls Char.isAlpha, .opt (litS "."), wsStar, .cls Char.isAlpha,
    .opt (litS "."), wsStar, .opt (.cls Char.isAlpha), .opt (litS "."), .bnd]

/-- normalize_initials (lines 265-270): keep only the letters of the match,
joined by single spaces. -/
def initialsReplAuthor (m : List Char) : List Char :=
  joinSpace ((m.filter Char.isAlpha).map fun c => [c])

/-- ServerDiff._normalize_author over the character-list model. -/
def normAuthorL (a0 : List Char) : List Char :=
  let a := a0.map fun c => replaceDashVariant (replaceSpaceVariant c.toLower)
  let a := removeAll suffixRE a
  let a := multiAuthorStep a
  let a :=
    match translatorSearch none a with
    | some g => stripWs g
    | none => removeAll creditsRE a
  let a := if publisherHit a then [] else a
  let a := reSubAll initialsRE initialsReplAuthor none a
  let a := a.filter fun c => isWordC c || isWs c
  collapseWs a

/-- ServerDiff._normalize_author. -/
def normalizeAuthor (s : String) : String :=
  ⟨normAuthorL s.data⟩

/-! ## All-author extraction (ServerDiff._extract_all_authors and
_normalize_single_author, server_diff.py 334-429) -/

/-- r'\s*-\s*(foreword|foreward|introduction|preface|afterword|adaptation|narrator|reader|performed by).*$' (line 391). -/
def singleContribRE : RE :=
  reSeq [wsStar, litS "-", wsStar,
    .alt (litS "foreword") (.alt (litS "foreward") (.alt (litS "introduction")
      (.alt (litS "preface") (.alt (litS "afterword") (.alt (litS "adaptation")
        (.alt (litS "narrator") (.alt (litS "reader") (litS "performed by")))))))),
    .star (fun c => c != '\n'), .eos]

/-- normalize_initials of _normalize_single_author (lines 407-411): remove
dots, collapse whitespace runs to single spaces, strip. -/
def initialsReplSingle (m : List Char) : List Char :=
  joinSpace (wordsOf (m.filter fun c => c != '.'))

/-- The literal pattern strings checked with plain substring membership in
_normalize_single_author (lines 402-404); unlike _normalize_author these are
not compiled as regexes there. -/
def publisherLiteralHit (a : List Char) : Bool :=
  containsSeq "audiobooks?!?".data a || containsSeq "audio books?".data a
    || containsSeq "recorded books?".data a || containsSeq "blackstone audio".data a

/-- ServerDiff._normalize_single_author. -/
def normSingleAuthorL (a0 : List Char) : List Char :=
  if a0.isEmpty then "unknown".data
  else
    let a := a0.map fun c => replaceDashVariant (replaceSpaceVariant c.toLower)
    let a := removeAll singleContribRE a
    let a :=
      match translatorSearch none a with
      | some g => stripWs g
      | none => a
    let a := removeAll suffixRE a
    if publisherLiteralHit a then "unknown".data
    else
      let a := reSubAll initialsRE initialsReplSingle none a
      let a := a.filter fun c => isWordC c || isWs c
      let a := collapseWs a
      if decide (2 < a.length) then a else "unknown".data

/-- ServerDiff._extract_all_authors: all mentioned authors as a normalized
collection; Python's set is modelled as the list of insertions (overlap
tests below only ask for a common member, which is insensitive to
duplicates). -/
def extractAllAuthors (s : List Char) : List (List Char) :=
  if s.isEmpty then ["unknown".data]
  else
    let authorsList :=
      if s.contains '/' then (splitOnChar '/' s).map stripWs
      else if s.contains ',' then
        let parts := splitOnChar ',' s
        match parts with
        | [p0, p1] =>
          if decide ((wordsOf (stripWs p1)).length ≤ 2)
              && decide ((wordsOf (stripWs p0)).length = 1)
              && !(["adaptation".data, "narrator".data, "reader".data, "foreword".data,
                    "foreward".data, "introduction".data].any fun w =>
                      containsSeq w (p1.map Char.toLower))
              && !(["author".data, "writer".data].any fun w =>
                      containsSeq w (p0.map Char.toLower)) then
            [stripWs p1 ++ ' ' :: stripWs p0]
          else parts.map stripWs
        | _ => parts.map stripWs
      else [s]
    let normalized := (authorsList.map normSingleAuthorL).filter fun n =>
      !n.isEmpty && decide (n ≠ "unknown".data)
    if normalized.isEmpty then ["unknown".data] else normalized

/-- ServerDiff._authors_overlap. -/
def authorsOverlap (a1 a2 : List Char) : Bool :=
  (extractAllAuthors a1).any fun x => (extractAllAuthors a2).any fun y => x = y

/-! ## Catalog items and metadata extraction (server_diff.py 284-473)

A Book models one item of get_server_books' dict: the unique item id plus
the fields that _extract_book_metadata reads after the adapter fallbacks
(media.metadata.title / media.metadata.authorName, media.duration, size) have
been resolved; duration and size are the extracted numbers, with 0 for an
absent value exactly as in the source's defaults. -/
structure Book where
  id : String
  title : String
  authorName : String
  duration : Nat
  size : Nat
deriving DecidableEq, Repr

/-- The result of ServerDiff._extract_book_metadata. -/
structure BookMeta where
  title : String
  author : String
  duration : Nat
  size : Nat
  raw_title : String
  raw_author : String
deriving DecidableEq, Repr

def extractBookMetadata (b : Book) : BookMeta :=
  { title := normalizeTitle b.title
    author := normalizeAuthor b.authorName
    duration := b.duration
    size := b.size
    raw_title := b.title
    raw_author := b.authorName }

/-- ServerDiff._create_book_key: primary matching key author|title. -/
def createBookKey (b : Book) : String :=
  let md := extractBookMetadata b
  md.author ++ "|" ++ md.title

/-- ServerDiff._create_title_key. -/
def createTitleKey (b : Book) : String :=
  (extractBookMetadata b).title

/-- Python round(n / m) for natural n and positive m, computed exactly on the
ratio: nearest integer, ties to even. -/
def pyRoundDiv (n m : Nat) : Nat :=
  let q := n / m
  let r := n % m
  if 2 * r < m then q
  else if m < 2 * r then q + 1
  else if q % 2 = 0 then q else q + 1

/-- ServerDiff._create_fallback_key (lines 444-452): only items with a
positive size get a key; the key is title|duration|size with the literal
"unknown" when the duration is not positive. -/
def createFallbackKey (b : Book) : Option String :=
  let md := extractBookMetadata b
  if 0 < md.size then
    let durationKey := if 0 < md.duration then toString md.duration else "unknown"
    some (md.title ++ "|" ++ durationKey ++ "|" ++ toString md.size)
  else none

/-- ServerDiff._create_flexible_fallback_key (lines 454-473): duration
rounded to the nearest 300 s (or "unknown"), size rounded to the nearest
10 MiB, first three words of the title. -/
def createFlexibleFallbackKey (b : Book) : Option String :=
  let md := extractBookMetadata b
  if 0 < md.size then
    let durationPart :=
      if 0 < md.duration then toString (pyRoundDiv md.duration 300 * 300) else "unknown"
    let sizeRounded := pyRoundDiv md.size (10 * 1024 * 1024) * (10 * 1024 * 1024)
    let titleWords := (wordsOf md.title.data).take 3
    let titleKey := if titleWords.isEmpty then md.title.data else joinSpace titleWords
    some (⟨titleKey⟩ ++ "|" ++ durationPart ++ "|" ++ toString sizeRounded)
  else none

/-! ## The multi-tier matcher (ServerDiff.compare_servers, server_diff.py 637-947)

Python dict insertion order keeps the first occurrence of each key; this is
firstDedup.  The iteration order of the Python id sets is unspecified, and
the embedding iterates them in catalog order. -/

/-- Key list in dict insertion order: first occurrence of each key. -/
def firstDedup {α : Type} [DecidableEq α] : List α → List α
  | [] => []
  | k :: ks => k :: (firstDedup ks).filter fun x => decide (x ≠ k)

def primaryKeysOf (books : List Book) : List String :=
  books.map createBookKey

/-- Source items whose primary key occurs on the target side
(matched_source_ids, lines 683-689, as the item list in catalog order). -/
def matchedPrimarySrc (src tgt : List Book) : List Book :=
  src.filter fun b => decide (createBookKey b ∈ primaryKeysOf tgt)

def matchedPrimaryTgt (src tgt : List Book) : List Book :=
  tgt.filter fun b => decide (createBookKey b ∈ primaryKeysOf src)

/-- missing_in_target after primary matching (line 711). -/
def missingAfterPrimarySrc (src tgt : List Book) : List Book :=
  src.filter fun b => !decide (createBookKey b ∈ primaryKeysOf tgt)

/-- missing_in_source after primary matching (line 712). -/
def missingAfterPrimaryTgt (src tgt : List Book) : List Book :=
  tgt.filter fun b => !decide (createBookKey b ∈ primaryKeysOf src)

/-- One primary match group (lines 698-708): the key together with every
source item and every target item carrying it.  The constant match_type and
reason strings of the source dict are omitted. -/
structure PrimaryGroup where
  key : String
  sourceItems : List Book
  targetItems : List Book
deriving DecidableEq, Repr

/-- primary_match_groups: one group per source key (in dict insertion order)
that also occurs on the target side. -/
def primaryGroups (src tgt : List Book) : List PrimaryGroup :=
  ((firstDedup (primaryKeysOf src)).filter fun k => decide (k ∈ primaryKeysOf tgt)).map
    fun k =>
      { key := k
        sourceItems := src.filter fun b => decide (createBookKey b = k)
        targetItems := tgt.filter fun b => decide (createBookKey b = k) }

/-- The author-overlap pairing condition of lines 757-758: equal normalized
title and overlapping author sets. -/
def tier2Cond (s t : Book) : Bool :=
  decide ((extractBookMetadata s).title = (extractBookMetadata t).title)
    && authorsOverlap (extractBookMetadata s).raw_author.data (extractBookMetadata t).raw_author.data

/-- First still-unmatched target pairable with s (the inner loop of lines
750-774): returns it with the remaining targets.  The pairing condition is a
parameter so that the structural lemmas below never inspect it; the matcher
instantiates it with tier2Cond. -/
def pickTier2Target (cond : Book → Book → Bool) (s : Book) :
    List Book → Option (Book × List Book)
  | [] => none
  | t :: ts =>
    if cond s t then some (t, ts)
    else
      match pickTier2Target cond s ts with
      | some (t2, rest) => some (t2, t :: rest)
      | none => none

/-- Greedy author-overlap pairing over the source items in processing order:
each matched source consumes exactly one target. -/
def tier2Go (cond : Book → Book → Bool) : List Book → List Book → List (Book × Book)
  | [], _ => []
  | s :: ss, tgts =>
    match pickTier2Target cond s tgts with
    | some (t, rest) => (s, t) :: tier2Go cond ss rest
    | none => tier2Go cond ss tgts

/-- The source processing order of the tier-2 loops (lines 742-774): title
groups in dict insertion order, each group in missing-list order.  Scanning
all targets flat while requiring equal titles is the same scan as the
source's per-title target lists. -/
def titleGroupOrder (books : List Book) : List Book :=
  (firstDedup (books.map createTitleKey)).flatMap fun k =>
    books.filter fun b => decide (createTitleKey b = k)

/-- author_overlap_details as source/target pairs. -/
def authorOverlapPairs (src tgt : List Book) : List (Book × Book) :=
  tier2Go tier2Cond (titleGroupOrder (missingAfterPrimarySrc src tgt))
    (missingAfterPrimaryTgt src tgt)

/-- missing_in_target after the author-overlap tier (line 777). -/
def missingAfterOverlapSrc (src tgt : List Book) : List Book :=
  (missingAfterPrimarySrc src tgt).filter fun b =>
    !decide (b.id ∈ (authorOverlapPairs src tgt).map fun p => p.1.id)

/-- missing_in_source after the author-overlap tier (line 778). -/
def missingAfterOverlapTgt (src tgt : List Book) : List Book :=
  (missingAfterPrimaryTgt src tgt).filter fun b =>
    !decide (b.id ∈ (authorOverlapPairs src tgt).map fun p => p.2.id)

/-- The fallback key dicts of lines 789-822 as functions: dict assignment in
iteration order, so the last item with a given key wins. -/
def fallbackMap (keyf : Book → Option String) (books : List Book) : String → Option Book :=
  books.foldl
    (fun m b =>
      match keyf b with
      | some k => fun x => if x = k then some b else m x
      | none => m)
    fun _ => none

/-- The keys present in a fallback dict, in insertion order. -/
def fallbackKeyList (keyf : Book → Option String) (books : List Book) : List String :=
  firstDedup (books.filterMap keyf)

/-- The keys present in the dicts of both sides for a key function (the set
intersections of lines 825 and 828). -/
def pairKeysBoth (keyf : Book → Option String) (missS missT : List Book) : List String :=
  (fallbackKeyList keyf missS).filter fun k => (fallbackMap keyf missT k).isSome

/-- The pairs a key list produces: for each key, the dict values of the two
sides. -/
def pairsByKey (keyf : Book → Option String) (missS missT : List Book)
    (ks : List String) : List (Book × Book) :=
  ks.filterMap fun k =>
    match fallbackMap keyf missS k, fallbackMap keyf missT k with
    | some s, some t => some (s, t)
    | _, _ => none

/-- The exclusion filter of lines 839-843: keep a key only when neither of
its two dict values is among the already-matched ids. -/
def keysNotAlready (keyf : Book → Option String) (exS exT : List String)
    (missS missT : List Book) (ks : List String) : List String :=
  ks.filter fun k =>
    match fallbackMap keyf missS k, fallbackMap keyf missT k with
    | some s, some t => !decide (s.id ∈ exS) && !decide (t.id ∈ exT)
    | _, _ => false

/-- exact_matched_keys (line 825). -/
def exactKeysBoth (missS missT : List Book) : List String :=
  pairKeysBoth createFallbackKey missS missT

/-- The exact fallback pairs processed in lines 853-887. -/
def exactPairsOf (missS missT : List Book) : List (Book × Book) :=
  pairsByKey createFallbackKey missS missT (exactKeysBoth missS missT)

/-- flexible_matched_keys before the exclusion filter (line 828). -/
def flexKeysBoth (missS missT : List Book) : List String :=
  pairKeysBoth createFlexibleFallbackKey missS missT

/-- flexible_matched_keys after removing keys whose source or target item was
already matched exactly (lines 831-843). -/
def flexMatchedKeysOf (missS missT : List Book) : List String :=
  keysNotAlready createFlexibleFallbackKey
    ((exactPairsOf missS missT).map fun p => p.1.id)
    ((exactPairsOf missS missT).map fun p => p.2.id)
    missS missT (flexKeysBoth missS missT)

/-- The flexible fallback pairs processed in lines 890-925. -/
def flexPairsOf (missS missT : List Book) : List (Book × Book) :=
  pairsByKey createFlexibleFallbackKey missS missT (flexMatchedKeysOf missS missT)

/-- The final missing_in_target list: the post-overlap missing items minus
the ids discarded by the two fallback passes (lines 885, 923). -/
def missingFinalSrcOf (missS missT : List Book) : List Book :=
  missS.filter fun b =>
    !decide (b.id ∈ (exactPairsOf missS missT).map fun p => p.1.id)
      && !decide (b.id ∈ (flexPairsOf missS missT).map fun p => p.1.id)

/-- The final missing_in_source list (lines 886, 924). -/
def missingFinalTgtOf (missS missT : List Book) : List Book :=
  missT.filter fun b =>
    !decide (b.id ∈ (exactPairsOf missS missT).map fun p => p.2.id)
      && !decide (b.id ∈ (flexPairsOf missS missT).map fun p => p.2.id)

/-- The result dict of compare_servers (lines 929-945); list-valued fields in
catalog order, the match_details lists under their own names. -/
structure CompareResult where
  missing_in_target : List Book
  missing_in_source : List Book
  common_books : List Book
  author_overlap_matches : Nat
  fallback_matches : Nat
  source_total : Nat
  target_total : Nat
  primary : List PrimaryGroup
  author_overlap : List (Book × Book)
  fallback_exact : List (Book × Book)
  fallback_flexible : List (Book × Book)
deriving DecidableEq, Repr

/-- ServerDiff.compare_servers on two already-fetched catalogs. -/
def compareServers (src tgt : List Book) : CompareResult :=
  let missS := missingAfterOverlapSrc src tgt
  let missT := missingAfterOverlapTgt src tgt
  { missing_in_target := missingFinalSrcOf missS missT
    missing_in_source := missingFinalTgtOf missS missT
    common_books := matchedPrimarySrc src tgt
    author_overlap_matches := (authorOverlapPairs src tgt).length
    fallback_matches := (exactPairsOf missS missT).length + (flexPairsOf missS missT).length
    source_total := src.length
    target_total := tgt.length
    primary := primaryGroups src tgt
    author_overlap := authorOverlapPairs src tgt
    fallback_exact := exactPairsOf missS missT
    fallback_flexible := flexPairsOf missS missT }

/-! ## download_file retry logic (audiobookshelf_downloader.py 203-228)

One attempt of the archive-stream step either succeeds (HTTP 200 streamed to
disk), gets a non-200 status, or raises.  The behaviour function gives the
outcome of each attempt number; the trace records the result, how many
attempts were made, and the sleeps performed (in seconds). -/

inductive StreamOutcome where
  | ok : StreamOutcome
  | badStatus : StreamOutcome
  | exc : StreamOutcome
deriving DecidableEq, Repr

structure DownloadTrace where
  success : Bool
  attemptsMade : Nat
  sleeps : List Nat
deriving DecidableEq, Repr

/-- The body of the for-attempt loop: on 200 return True; on a non-200
status sleep 2^attempt when attempt < retries and then return False (the
source returns inside the else-branch, so no further attempt happens); on an
exception sleep 2^attempt and continue when attempt < retries, else return
False.  The fuel is retries + 1 - attempt, the number of loop iterations
left. -/
def downloadFileGo (behavior : Nat → StreamOutcome) (retries : Nat) : Nat → Nat → DownloadTrace
  | _, 0 => { success := false, attemptsMade := 0, sleeps := [] }
  | attempt, fuel + 1 =>
    match behavior attempt with
    | .ok => { success := true, attemptsMade := attempt + 1, sleeps := [] }
    | .badStatus =>
      if attempt < retries then
        { success := false, attemptsMade := attempt + 1, sleeps := [2 ^ attempt] }
      else
        { success := false, attemptsMade := attempt + 1, sleeps := [] }
    | .exc =>
      if attempt < retries then
        let t := downloadFileGo behavior retries (attempt + 1) fuel
        { success := t.success, attemptsMade := t.attemptsMade, sleeps := 2 ^ attempt :: t.sleeps }
      else
        { success := false, attemptsMade := attempt + 1, sleeps := [] }

/-- AudiobookshelfDownloader.download_file with maxRetries = retries. -/
def downloadFile (behavior : Nat → StreamOutcome) (retries : Nat) : DownloadTrace :=
  downloadFileGo behavior retries 0 (retries + 1)

/-! ## get_libraries and get_server_books (audiobookshelf_downloader.py 77-92,
server_diff.py 591-635) -/

structure LibraryRec where
  id : String
  name : String
deriving DecidableEq, Repr

/-- The outcome of the GET /api/libraries list call: a response with a status
and payload, or a raised exception. -/
inductive ListResponse where
  | response (status : Nat) (libraries : List LibraryRec) : ListResponse
  | raised : ListResponse
deriving DecidableEq, Repr

/-- AudiobookshelfDownloader.get_libraries: the payload on status 200, the
empty list on any other status, and the empty list when the request raises
(both failure paths are logged and swallowed in the source). -/
def getLibraries : ListResponse → List LibraryRec
  | .response status libraries => if status = 200 then libraries else []
  | .raised => []

/-- A server as seen by ServerDiff.get_server_books: the list-libraries
outcome plus the items each library fetch yields (get_library_items also
returns [] rather than raising on failure, so a plain list models its
outcome). -/
structure ServerModel where
  libsResponse : ListResponse
  itemsOf : String → List Book

/-- ServerDiff.get_server_books with no library filter: every fetched item
with a nonempty id, in fetch order.  The source stores items in a dict keyed
by item id; the embedding keeps the list, and theorems about the comparison
assume pairwise distinct ids as that dict guarantees. -/
def getServerBooks (s : ServerModel) : List Book :=
  (getLibraries s.libsResponse).flatMap fun lib =>
    (s.itemsOf lib.id).filter fun b => decide (b.id ≠ "")

/-- compare_servers from the fetch boundary (lines 644-652 feed
get_server_books of both servers into the matcher). -/
def compareFromServers (src tgt : ServerModel) : CompareResult :=
  compareServers (getServerBooks src) (getServerBooks tgt)

/-! ## Paginated fetch (AudiobookshelfDownloader.get_library_items,
audiobookshelf_downloader.py 94-187) -/

/-- One item of a page payload: the loop reads only the id field (an absent
id is modelled by ""). -/
structure PageItem where
  id : String
deriving DecidableEq, Repr

/-- One page response: HTTP status, the items payload, and the reported
total (data.get('total', 0); the loop uses only the initial response's
total). -/
structure PageResp where
  status : Nat
  items : List PageItem
  total : Nat
deriving DecidableEq, Repr

/-- The hard page bound max_pages = 10 (line 130). -/
def maxPagesConst : Nat := 10

/-- Lines 147-153: the page items whose ids are not among the truthy ids
already collected (an item with an empty id is never in the collected id
set, as in the source where None is not in the set of truthy ids). -/
def newPageItems (allItems pageItems : List PageItem) : List PageItem :=
  let existing := allItems.filterMap fun i => if i.id = "" then none else some i.id
  pageItems.filter fun i => !decide (i.id ∈ existing)

/-- The while-loop of lines 132-174 over an arbitrary page-response function:
returns the accumulated items and the list of page numbers requested.  The
loop body stops on a non-200 page, an empty page, a page with no new items,
a short page (fewer items than the limit), or once the accumulated count
reaches the reported total; the while-condition also stops past max_pages.
The fuel argument makes the recursion structural; any fuel at least
maxPagesConst + 1 - page is never exhausted, because page grows by one per
request. -/
def fetchPages (server : Nat → PageResp) (limit total : Nat) :
    List PageItem → Nat → Nat → List PageItem × List Nat
  | allItems, _, 0 => (allItems, [])
  | allItems, page, fuel + 1 =>
    if page ≤ maxPagesConst ∧ allItems.length < total then
      let resp := server page
      if resp.status = 200 then
        if resp.items.isEmpty then (allItems, [page])
        else
          let newItems := newPageItems allItems resp.items
          if newItems.isEmpty then (allItems, [page])
          else
            let allItems2 := allItems ++ newItems
            if resp.items.length < limit then (allItems2, [page])
            else if total ≤ allItems2.length then (allItems2, [page])
            else
              let rest := fetchPages server limit total allItems2 (page + 1) fuel
              (rest.1, page :: rest.2)
      else (allItems, [page])
    else (allItems, [])

/-- AudiobookshelfDownloader.get_library_items: the initial request, then
the pagination loop from page 1 when the reported total exceeds the first
page. -/
def getLibraryItems (first : PageResp) (pages : Nat → PageResp) (limit : Nat) : List PageItem :=
  if first.status = 200 then
    if first.items.length < first.total then
      (fetchPages pages limit first.total first.items 1 (maxPagesConst + 1)).1
    else first.items
  else []

/-! ## download_selected_books (audiobookshelf_downloader.py 320-392)

Every queued book becomes one task; asyncio.as_completed yields each task
exactly once, in an arbitrary completion order, and the gathering loop
counts a success for a task returning True and a failure both for a task
returning False and for a task that raises. -/

inductive TaskOutcome where
  | ok : TaskOutcome
  | failedResult : TaskOutcome
  | raisedExc : TaskOutcome
deriving DecidableEq, Repr

structure BatchResult where
  total : Nat
  success : Nat
  failed : Nat
deriving DecidableEq, Repr

/-- The as-completed gathering loop of lines 380-389. -/
def gatherResults (total : Nat) (outs : List TaskOutcome) : BatchResult :=
  outs.foldl
    (fun r o =>
      match o with
      | .ok => { r with success := r.success + 1 }
      | .failedResult => { r with failed := r.failed + 1 }
      | .raisedExc => { r with failed := r.failed + 1 })
    { total := total, success := 0, failed := 0 }

/-- AudiobookshelfDownloader.download_selected_books: outcomeOf gives each
book's task outcome and completionOrder is the order in which
asyncio.as_completed yields the tasks (a permutation of the books, each task
completing exactly once). -/
def downloadSelectedBooks (books : List Book) (outcomeOf : Book → TaskOutcome)
    (completionOrder : List Book) : BatchResult :=
  if books.isEmpty then { total := 0, success := 0, failed := 0 }
  else gatherResults books.length (completionOrder.map outcomeOf)

/-! ## General lemmas about the matcher's building blocks -/

theorem mem_firstDedup {α : Type} [DecidableEq α] {a : α} :
    ∀ {l : List α}, a ∈ firstDedup l ↔ a ∈ l
  | [] => Iff.rfl
  | k :: ks => by
    simp only [firstDedup, List.mem_cons, List.mem_filter, @mem_firstDedup α _ a ks,
      decide_eq_true_eq]
    by_cases h : a = k
    · simp [h]
    · simp [h]

theorem nodup_firstDedup {α : Type} [DecidableEq α] : ∀ (l : List α), (firstDedup l).Nodup
  | [] => List.nodup_nil
  | k :: ks => by
    refine List.Nodup.cons ?_ ((nodup_firstDedup ks).filter _)
    intro hk
    rcases List.mem_filter.mp hk with ⟨-, hne⟩
    simp at hne

/-- Concatenating two filters with pointwise exclusive predicates is a
permutation of the filter of their disjunction. -/
theorem filter_or_perm {α : Type} (p q : α → Bool) :
    ∀ (l : List α), (∀ a ∈ l, ¬(p a = true ∧ q a = true)) →
      (l.filter p ++ l.filter q).Perm (l.filter fun a => p a || q a)
  | [], _ => by simp
  | a :: l, h => by
    have ih := filter_or_perm p q l fun x hx => h x (List.mem_cons_of_mem _ hx)
    have ha := h a (List.mem_cons_self _ _)
    by_cases hp : p a = true
    · have hq : q a = false := by
        cases hqv : q a
        · rfl
        · exact absurd ⟨hp, hqv⟩ ha
      simp only [List.filter_cons, hp, hq, Bool.false_or, Bool.true_or, if_true]
      simpa using ih.cons a
    · have hp' : p a = false := by simpa using hp
      by_cases hq : q a = true
      · simp only [List.filter_cons, hp', hq, Bool.false_or, if_true]
        exact List.Perm.trans List.perm_middle (ih.cons a)
      · have hq' : q a = false := by simpa using hq
        simpa [List.filter_cons, hp', hq'] using ih

/-- Grouping by a Nodup key list: binding the per-key filters is a
permutation of the filter of key membership. -/
theorem flatMap_filter_perm {α β : Type} [DecidableEq α] (keyf : β → α) (l : List β) :
    ∀ (ks : List α), ks.Nodup →
      ((ks.flatMap fun k => l.filter fun b => decide (keyf b = k)).Perm
        (l.filter fun b => decide (keyf b ∈ ks)))
  | [], _ => by simp
  | k :: ks, h => by
    have hk : k ∉ ks := (List.nodup_cons.mp h).1
    have ih := flatMap_filter_perm keyf l ks (List.nodup_cons.mp h).2
    have step1 : ((l.filter fun b => decide (keyf b = k)) ++
        (ks.flatMap fun k2 => l.filter fun b => decide (keyf b = k2))).Perm
        ((l.filter fun b => decide (keyf b = k)) ++ l.filter fun b => decide (keyf b ∈ ks)) :=
      (List.Perm.refl _).append ih
    have step2 : ((l.filter fun b => decide (keyf b = k)) ++
        (l.filter fun b => decide (keyf b ∈ ks))).Perm
        (l.filter fun b => decide (keyf b = k) || decide (keyf b ∈ ks)) := by
      refine filter_or_perm _ _ l fun a _ hboth => ?_
      rcases hboth with ⟨h1, h2⟩
      have e1 : keyf a = k := by simpa using h1
      have e2 : keyf a ∈ ks := by simpa using h2
      exact hk (e1 ▸ e2)
    have step3 : (l.filter fun b => decide (keyf b = k) || decide (keyf b ∈ ks)) =
        l.filter fun b => decide (keyf b ∈ k :: ks) := by
      refine List.filter_congr fun b _ => ?_
      simp [List.mem_cons, Bool.decide_or]
    simpa [List.flatMap_cons, step3] using step1.trans step2


/-- Items with the same id in an id-Nodup list are equal. -/
theorem book_eq_of_id_eq {l : List Book} (h : (l.map Book.id).Nodup) {a b : Book}
    (ha : a ∈ l) (hb : b ∈ l) (hid : a.id = b.id) : a = b :=
  List.inj_on_of_nodup_map h ha hb hid

/-- Removing a selection with Nodup ids from an id-Nodup list by id-filter
and putting the selection back in front is a permutation of the list. -/
theorem sub_filter_perm :
    ∀ (sub l : List Book), (∀ b ∈ sub, b ∈ l) → (l.map Book.id).Nodup →
      (sub.map Book.id).Nodup →
      (sub ++ l.filter fun b => !decide (b.id ∈ sub.map Book.id)).Perm l
  | [], l, _, _, _ => by simp
  | s :: sub, l, hsub, hl, hs => by
    have hsl : s ∈ l := hsub s (List.mem_cons_self _ _)
    have hperm : l.Perm (s :: l.erase s) := List.perm_cons_erase hsl
    have hidp : (l.map Book.id).Perm (s.id :: (l.erase s).map Book.id) := by
      simpa using hperm.map Book.id
    have hcons : (s.id :: (l.erase s).map Book.id).Nodup := hidp.nodup_iff.mp hl
    have hsid : s.id ∉ (l.erase s).map Book.id := (List.nodup_cons.mp hcons).1
    have herasenodup : ((l.erase s).map Book.id).Nodup := (List.nodup_cons.mp hcons).2
    have hs2 : (s.id :: sub.map Book.id).Nodup := by simpa using hs
    have hsidsub : s.id ∉ sub.map Book.id := (List.nodup_cons.mp hs2).1
    have hsubnodup : (sub.map Book.id).Nodup := (List.nodup_cons.mp hs2).2
    have hsubmem : ∀ b ∈ sub, b ∈ l.erase s := by
      intro b hb
      have hbl : b ∈ l := hsub b (List.mem_cons_of_mem _ hb)
      have hbs : b ≠ s := by
        intro he
        exact hsidsub (he ▸ List.mem_map_of_mem Book.id hb)
      exact (List.mem_erase_of_ne hbs).mpr hbl
    have ih := sub_filter_perm sub (l.erase s) hsubmem herasenodup hsubnodup
    have h2 : ((s :: l.erase s).filter fun b => !decide (b.id ∈ (s :: sub).map Book.id)) =
        (l.erase s).filter fun b => !decide (b.id ∈ (s :: sub).map Book.id) := by
      simp [List.filter_cons]
    have h3 : ((l.erase s).filter fun b => !decide (b.id ∈ (s :: sub).map Book.id)) =
        (l.erase s).filter fun b => !decide (b.id ∈ sub.map Book.id) := by
      refine List.filter_congr fun b hb => ?_
      have hb2 : b.id ≠ s.id := by
        intro he
        exact hsid (he ▸ List.mem_map_of_mem Book.id hb)
      simp [List.mem_cons, hb2]
    have hfil : (l.filter fun b => !decide (b.id ∈ (s :: sub).map Book.id)).Perm
        ((l.erase s).filter fun b => !decide (b.id ∈ sub.map Book.id)) := by
      have h1 := hperm.filter fun b => !decide (b.id ∈ (s :: sub).map Book.id)
      rw [h2, h3] at h1
      exact h1
    have hstep : ((s :: sub) ++ l.filter fun b => !decide (b.id ∈ (s :: sub).map Book.id)).Perm
        (s :: (sub ++ (l.erase s).filter fun b => !decide (b.id ∈ sub.map Book.id))) :=
      (((List.Perm.refl sub).append hfil).cons s)
    exact hstep.trans ((ih.cons s).trans hperm.symm)

/-- Nodup of the f-image of a filterMap over a Nodup index list, given
injectivity through f. -/
theorem nodup_map_filterMap {α β γ : Type} (g : α → Option β) (f : β → γ) :
    ∀ (ks : List α), ks.Nodup →
      (∀ k1 k2 p1 p2, k1 ∈ ks → k2 ∈ ks → g k1 = some p1 → g k2 = some p2 →
        f p1 = f p2 → k1 = k2) →
      ((ks.filterMap g).map f).Nodup
  | [], _, _ => by simp
  | k :: ks, h, hinj => by
    have hk := (List.nodup_cons.mp h).1
    have ih := nodup_map_filterMap g f ks (List.nodup_cons.mp h).2
      fun k1 k2 p1 p2 h1 h2 => hinj k1 k2 p1 p2 (List.mem_cons_of_mem _ h1)
        (List.mem_cons_of_mem _ h2)
    cases hg : g k with
    | none => simpa [List.filterMap_cons, hg] using ih
    | some p =>
      simp only [List.filterMap_cons, hg, List.map_cons]
      refine List.Nodup.cons ?_ ih
      intro hmem
      rcases List.mem_map.mp hmem with ⟨p2, hp2, hf⟩
      rcases List.mem_filterMap.mp hp2 with ⟨k2, hk2, hg2⟩
      have hkk : k = k2 :=
        hinj k k2 p p2 (List.mem_cons_self _ _) (List.mem_cons_of_mem _ hk2) hg hg2 hf.symm
      exact hk (hkk ▸ hk2)

/-- The fallback dict lookup is the last inserted item with that key. -/
theorem fallbackMap_eq (keyf : Book → Option String) (books : List Book) (k : String) :
    fallbackMap keyf books k = (books.filter fun b => decide (keyf b = some k)).getLast? := by
  induction books using List.reverseRecOn with
  | nil => rfl
  | append_singleton bs b ih =>
    unfold fallbackMap at ih ⊢
    rw [List.foldl_append, List.foldl_cons, List.foldl_nil]
    cases hk : keyf b with
    | none =>
      simp only [hk, List.filter_append, List.filter_cons, List.filter_nil]
      simpa [hk] using ih
    | some k2 =>
      by_cases hkk : k = k2
      · subst hkk
        simp [hk, List.filter_append, List.getLast?_concat]
      · have hne : decide (keyf b = some k) = false := by
          simp only [hk, decide_eq_false_iff_not]
          intro hcon
          exact hkk (Option.some.inj hcon).symm
        have hfil : List.filter (fun x => decide (keyf x = some k)) (bs ++ [b]) =
            List.filter (fun x => decide (keyf x = some k)) bs := by
          simp [List.filter_append, List.filter_cons, hne]
        rw [hfil]
        simp only [hk]
        rw [if_neg hkk]
        exact ih

/-- A value stored in a fallback dict is a list member carrying that key. -/
theorem fallbackMap_eq_some {keyf : Book → Option String} {books : List Book} {k : String}
    {b : Book} (h : fallbackMap keyf books k = some b) : b ∈ books ∧ keyf b = some k := by
  rw [fallbackMap_eq] at h
  have hb := List.mem_of_mem_getLast? h
  exact ⟨(List.mem_filter.mp hb).1, by simpa using (List.mem_filter.mp hb).2⟩

/-- The primary groups' source items are exactly the primary-matched source
items, up to order. -/
theorem primaryGroups_src_perm (src tgt : List Book) :
    ((primaryGroups src tgt).flatMap fun g => g.sourceItems).Perm (matchedPrimarySrc src tgt) := by
  have hks : ((firstDedup (primaryKeysOf src)).filter fun k =>
      decide (k ∈ primaryKeysOf tgt)).Nodup := (nodup_firstDedup _).filter _
  have hperm := flatMap_filter_perm createBookKey src _ hks
  have heq : (primaryGroups src tgt).flatMap (fun g => g.sourceItems) =
      ((firstDedup (primaryKeysOf src)).filter fun k => decide (k ∈ primaryKeysOf tgt)).flatMap
        fun k => src.filter fun b => decide (createBookKey b = k) := by
    unfold primaryGroups
    rw [List.flatMap_map]
  have hcong : (src.filter fun b => decide (createBookKey b ∈
      (firstDedup (primaryKeysOf src)).filter fun k => decide (k ∈ primaryKeysOf tgt))) =
      matchedPrimarySrc src tgt := by
    unfold matchedPrimarySrc
    refine List.filter_congr fun b hb => ?_
    have hmem : createBookKey b ∈ primaryKeysOf src := List.mem_map_of_mem createBookKey hb
    simp [List.mem_filter, mem_firstDedup, hmem]
  rw [heq]
  exact hcong ▸ hperm

/-- The primary groups' target items are exactly the primary-matched target
items, up to order. -/
theorem primaryGroups_tgt_perm (src tgt : List Book) :
    ((primaryGroups src tgt).flatMap fun g => g.targetItems).Perm (matchedPrimaryTgt src tgt) := by
  have hks : ((firstDedup (primaryKeysOf src)).filter fun k =>
      decide (k ∈ primaryKeysOf tgt)).Nodup := (nodup_firstDedup _).filter _
  have hperm := flatMap_filter_perm createBookKey tgt _ hks
  have heq : (primaryGroups src tgt).flatMap (fun g => g.targetItems) =
      ((firstDedup (primaryKeysOf src)).filter fun k => decide (k ∈ primaryKeysOf tgt)).flatMap
        fun k => tgt.filter fun b => decide (createBookKey b = k) := by
    unfold primaryGroups
    rw [List.flatMap_map]
  have hcong : (tgt.filter fun b => decide (createBookKey b ∈
      (firstDedup (primaryKeysOf src)).filter fun k => decide (k ∈ primaryKeysOf tgt))) =
      matchedPrimaryTgt src tgt := by
    unfold matchedPrimaryTgt
    refine List.filter_congr fun b hb => ?_
    have hmem : createBookKey b ∈ primaryKeysOf tgt := List.mem_map_of_mem createBookKey hb
    simp [List.mem_filter, mem_firstDedup, hmem]
  rw [heq]
  exact hcong ▸ hperm

/-- The primary tier partitions each side. -/
theorem primary_partition_src (src tgt : List Book) :
    (matchedPrimarySrc src tgt ++ missingAfterPrimarySrc src tgt).Perm src :=
  List.filter_append_perm _ src

theorem primary_partition_tgt (src tgt : List Book) :
    (matchedPrimaryTgt src tgt ++ missingAfterPrimaryTgt src tgt).Perm tgt :=
  List.filter_append_perm _ tgt

/-- The tier-2 processing order is a permutation of the missing list. -/
theorem titleGroupOrder_perm (books : List Book) : (titleGroupOrder books).Perm books := by
  unfold titleGroupOrder
  have h := flatMap_filter_perm createTitleKey books
    (firstDedup (books.map createTitleKey)) (nodup_firstDedup _)
  refine h.trans ?_
  have heq : (books.filter fun b =>
      decide (createTitleKey b ∈ firstDedup (books.map createTitleKey))) = books := by
    rw [List.filter_eq_self]
    intro b hb
    simpa [mem_firstDedup] using List.mem_map_of_mem createTitleKey hb
  rw [heq]

/-- A successful pick returns a list member together with the rest. -/
theorem pickTier2Target_perm (cond : Book → Book → Bool) (s : Book) :
    ∀ (ts : List Book) (t : Book) (rest : List Book),
      pickTier2Target cond s ts = some (t, rest) → ts.Perm (t :: rest)
  | [], t, rest, h => by simp [pickTier2Target] at h
  | t0 :: ts0, t, rest, h => by
    unfold pickTier2Target at h
    cases hc : cond s t0 with
    | true =>
      rw [hc] at h
      simp only [if_true] at h
      obtain ⟨rfl, rfl⟩ := Prod.mk.injEq t0 ts0 t rest ▸ Option.some.inj h
      exact List.Perm.refl _
    | false =>
      rw [hc] at h
      simp only [Bool.false_eq_true, if_false] at h
      cases hpick : pickTier2Target cond s ts0 with
      | none =>
        rw [hpick] at h
        exact absurd h (by simp)
      | some pr =>
        obtain ⟨t2, rest2⟩ := pr
        rw [hpick] at h
        obtain ⟨rfl, rfl⟩ := Prod.mk.injEq t2 (t0 :: rest2) t rest ▸ Option.some.inj h
        have ih := pickTier2Target_perm cond s ts0 t2 rest2 hpick
        exact (ih.cons t0).trans (List.Perm.swap t2 t0 rest2)

/-- Structure of the greedy tier-2 pairing: the sources are a sublist of the
processed sources, the targets are distinct members of the target pool. -/
theorem tier2Go_facts (cond : Book → Book → Bool) :
    ∀ (ss ts : List Book), (ts.map Book.id).Nodup →
      ((tier2Go cond ss ts).map (fun p => p.1)).Sublist ss
      ∧ (∀ p ∈ tier2Go cond ss ts, p.2 ∈ ts)
      ∧ ((tier2Go cond ss ts).map fun p => p.2.id).Nodup
  | [], ts, _ => by simp [tier2Go]
  | s :: ss, ts, h => by
    unfold tier2Go
    cases hpick : pickTier2Target cond s ts with
    | none =>
      obtain ⟨h1, h2, h3⟩ := tier2Go_facts cond ss ts h
      exact ⟨h1.cons s, h2, h3⟩
    | some pr =>
      obtain ⟨t, rest⟩ := pr
      have hperm := pickTier2Target_perm cond s ts t rest hpick
      have hidp : (ts.map Book.id).Perm (t.id :: rest.map Book.id) := by
        simpa using hperm.map Book.id
      have hcons : (t.id :: rest.map Book.id).Nodup := hidp.nodup_iff.mp h
      have htid : t.id ∉ rest.map Book.id := (List.nodup_cons.mp hcons).1
      have hrest : (rest.map Book.id).Nodup := (List.nodup_cons.mp hcons).2
      obtain ⟨h1, h2, h3⟩ := tier2Go_facts cond ss rest hrest
      refine ⟨by simpa using h1.cons₂ s, ?_, ?_⟩
      · intro p hp
        rcases List.mem_cons.mp hp with rfl | hp2
        · exact hperm.mem_iff.mpr (List.mem_cons_self _ _)
        · exact hperm.mem_iff.mpr (List.mem_cons_of_mem _ (h2 p hp2))
      · simp only [List.map_cons]
        refine List.Nodup.cons ?_ h3
        intro hmem
        rcases List.mem_map.mp hmem with ⟨p, hp, hpid⟩
        exact htid (hpid ▸ List.mem_map_of_mem Book.id (h2 p hp))

/-- Ids stay Nodup under filtering. -/
theorem nodup_ids_filter {l : List Book} (p : Book → Bool) (h : (l.map Book.id).Nodup) :
    ((l.filter p).map Book.id).Nodup :=
  h.sublist ((List.filter_sublist l).map Book.id)

/-- Tier 2 partitions the source-side missing list. -/
theorem stage2_src_perm (src tgt : List Book) (hs : (src.map Book.id).Nodup)
    (ht : (tgt.map Book.id).Nodup) :
    (((authorOverlapPairs src tgt).map fun p => p.1) ++ missingAfterOverlapSrc src tgt).Perm
      (missingAfterPrimarySrc src tgt) := by
  have hmissT : ((missingAfterPrimaryTgt src tgt).map Book.id).Nodup := nodup_ids_filter _ ht
  have hmissS : ((missingAfterPrimarySrc src tgt).map Book.id).Nodup := nodup_ids_filter _ hs
  obtain ⟨hsub, htmem, htnodup⟩ := tier2Go_facts tier2Cond
    (titleGroupOrder (missingAfterPrimarySrc src tgt)) (missingAfterPrimaryTgt src tgt) hmissT
  have hordperm := titleGroupOrder_perm (missingAfterPrimarySrc src tgt)
  have hsubP : ((authorOverlapPairs src tgt).map (fun p => p.1)).Sublist
      (titleGroupOrder (missingAfterPrimarySrc src tgt)) := hsub
  have hsrcmem : ∀ b ∈ (authorOverlapPairs src tgt).map (fun p => p.1),
      b ∈ missingAfterPrimarySrc src tgt := by
    intro b hb
    exact hordperm.mem_iff.mp (hsubP.subset hb)
  have hordnodup : ((titleGroupOrder (missingAfterPrimarySrc src tgt)).map Book.id).Nodup :=
    (hordperm.map Book.id).nodup_iff.mpr hmissS
  have hsrcnodup : (((authorOverlapPairs src tgt).map fun p => p.1).map Book.id).Nodup :=
    hordnodup.sublist (hsubP.map Book.id)
  have hmiss2 : missingAfterOverlapSrc src tgt =
      (missingAfterPrimarySrc src tgt).filter fun b =>
        !decide (b.id ∈ ((authorOverlapPairs src tgt).map fun p => p.1).map Book.id) := by
    unfold missingAfterOverlapSrc
    refine List.filter_congr fun b _ => ?_
    simp [List.map_map, Function.comp]
  rw [hmiss2]
  exact sub_filter_perm _ _ hsrcmem hmissS hsrcnodup

/-- Tier 2 partitions the target-side missing list. -/
theorem stage2_tgt_perm (src tgt : List Book)
    (ht : (tgt.map Book.id).Nodup) :
    (((authorOverlapPairs src tgt).map fun p => p.2) ++ missingAfterOverlapTgt src tgt).Perm
      (missingAfterPrimaryTgt src tgt) := by
  have hmissT : ((missingAfterPrimaryTgt src tgt).map Book.id).Nodup := nodup_ids_filter _ ht
  obtain ⟨hsub, htmem, htnodup⟩ := tier2Go_facts tier2Cond
    (titleGroupOrder (missingAfterPrimarySrc src tgt)) (missingAfterPrimaryTgt src tgt) hmissT
  have htgtmem : ∀ b ∈ (authorOverlapPairs src tgt).map (fun p => p.2),
      b ∈ missingAfterPrimaryTgt src tgt := by
    intro b hb
    rcases List.mem_map.mp hb with ⟨p, hp, rfl⟩
    exact htmem p hp
  have htgtnodup : (((authorOverlapPairs src tgt).map fun p => p.2).map Book.id).Nodup := by
    simpa [List.map_map, Function.comp] using htnodup
  have hmiss2 : missingAfterOverlapTgt src tgt =
      (missingAfterPrimaryTgt src tgt).filter fun b =>
        !decide (b.id ∈ ((authorOverlapPairs src tgt).map fun p => p.2).map Book.id) := by
    unfold missingAfterOverlapTgt
    refine List.filter_congr fun b _ => ?_
    simp [List.map_map, Function.comp]
  rw [hmiss2]
  exact sub_filter_perm _ _ htgtmem hmissT htgtnodup

/-- Unpacking a pair produced by a key list. -/
theorem pairsByKey_g_eq {keyf : Book → Option String} {missS missT : List Book} {k : String}
    {p : Book × Book}
    (h : (match fallbackMap keyf missS k, fallbackMap keyf missT k with
      | some s, some t => some (s, t)
      | _, _ => none) = some p) :
    fallbackMap keyf missS k = some p.1 ∧ fallbackMap keyf missT k = some p.2 := by
  cases hS : fallbackMap keyf missS k with
  | none => rw [hS] at h; exact absurd h (by simp)
  | some s2 =>
    cases hT : fallbackMap keyf missT k with
    | none => rw [hS, hT] at h; exact absurd h (by simp)
    | some t2 =>
      rw [hS, hT] at h
      have := Option.some.inj h
      subst this
      exact ⟨rfl, rfl⟩

theorem pairsByKey_mem {keyf : Book → Option String} {missS missT : List Book}
    {ks : List String} {p : Book × Book} (h : p ∈ pairsByKey keyf missS missT ks) :
    ∃ k, k ∈ ks ∧ fallbackMap keyf missS k = some p.1 ∧ fallbackMap keyf missT k = some p.2 := by
  rcases List.mem_filterMap.mp h with ⟨k, hk, hmatch⟩
  obtain ⟨hS, hT⟩ := pairsByKey_g_eq hmatch
  exact ⟨k, hk, hS, hT⟩

/-- A pair's source item is a missS member holding the key, and likewise the
target item. -/
theorem pairsByKey_mem_sides {keyf : Book → Option String} {missS missT : List Book}
    {ks : List String} {p : Book × Book} (h : p ∈ pairsByKey keyf missS missT ks) :
    (p.1 ∈ missS ∧ ∃ k, keyf p.1 = some k ∧ k ∈ ks)
      ∧ (p.2 ∈ missT ∧ ∃ k, keyf p.2 = some k ∧ k ∈ ks) := by
  rcases pairsByKey_mem h with ⟨k, hk, hS, hT⟩
  obtain ⟨h1, h2⟩ := fallbackMap_eq_some hS
  obtain ⟨h3, h4⟩ := fallbackMap_eq_some hT
  exact ⟨⟨h1, k, h2, hk⟩, ⟨h3, k, h4, hk⟩⟩

theorem pairsByKey_src_nodup (keyf : Book → Option String) (missS missT : List Book)
    (ks : List String) (hks : ks.Nodup) (hmiss : (missS.map Book.id).Nodup) :
    ((pairsByKey keyf missS missT ks).map fun p => p.1.id).Nodup := by
  unfold pairsByKey
  refine nodup_map_filterMap _ _ ks hks ?_
  intro k1 k2 p1 p2 _ _ hg1 hg2 hf
  obtain ⟨hS1, -⟩ := pairsByKey_g_eq hg1
  obtain ⟨hS2, -⟩ := pairsByKey_g_eq hg2
  obtain ⟨hm1, hk1⟩ := fallbackMap_eq_some hS1
  obtain ⟨hm2, hk2⟩ := fallbackMap_eq_some hS2
  have heq : p1.1 = p2.1 := book_eq_of_id_eq hmiss hm1 hm2 hf
  have : some k1 = some k2 := by rw [← hk1, ← hk2, heq]
  exact Option.some.inj this

theorem pairsByKey_tgt_nodup (keyf : Book → Option String) (missS missT : List Book)
    (ks : List String) (hks : ks.Nodup) (hmiss : (missT.map Book.id).Nodup) :
    ((pairsByKey keyf missS missT ks).map fun p => p.2.id).Nodup := by
  unfold pairsByKey
  refine nodup_map_filterMap _ _ ks hks ?_
  intro k1 k2 p1 p2 _ _ hg1 hg2 hf
  obtain ⟨-, hT1⟩ := pairsByKey_g_eq hg1
  obtain ⟨-, hT2⟩ := pairsByKey_g_eq hg2
  obtain ⟨hm1, hk1⟩ := fallbackMap_eq_some hT1
  obtain ⟨hm2, hk2⟩ := fallbackMap_eq_some hT2
  have heq : p1.2 = p2.2 := book_eq_of_id_eq hmiss hm1 hm2 hf
  have : some k1 = some k2 := by rw [← hk1, ← hk2, heq]
  exact Option.some.inj this

theorem pairKeysBoth_nodup (keyf : Book → Option String) (missS missT : List Book) :
    (pairKeysBoth keyf missS missT).Nodup :=
  (nodup_firstDedup _).filter _

theorem flexMatchedKeys_nodup (missS missT : List Book) :
    (flexMatchedKeysOf missS missT).Nodup :=
  (pairKeysBoth_nodup createFlexibleFallbackKey missS missT).filter _

/-- A flexible pair excludes exactly-matched ids on both sides. -/
theorem flexPairs_excl {missS missT : List Book} {p : Book × Book}
    (h : p ∈ flexPairsOf missS missT) :
    p.1.id ∉ (exactPairsOf missS missT).map (fun q => q.1.id)
      ∧ p.2.id ∉ (exactPairsOf missS missT).map (fun q => q.2.id) := by
  rcases pairsByKey_mem h with ⟨k, hk, hS, hT⟩
  unfold flexMatchedKeysOf keysNotAlready at hk
  rcases List.mem_filter.mp hk with ⟨-, hcond⟩
  rw [hS, hT] at hcond
  simp only [Bool.and_eq_true, Bool.not_eq_true', decide_eq_false_iff_not] at hcond
  exact hcond

/-- Two separate id-exclusion tests equal one test against the concatenation. -/
theorem not_mem_append_bool {x : String} {l1 l2 : List String} :
    (!decide (x ∈ l1) && !decide (x ∈ l2)) = !decide (x ∈ l1 ++ l2) := by
  rw [← Bool.not_or, ← Bool.decide_or]
  have hiff : (x ∈ l1 ∨ x ∈ l2) ↔ x ∈ l1 ++ l2 := List.mem_append.symm
  rw [decide_eq_decide.mpr hiff]

/-- The fallback tiers partition the source-side missing list. -/
theorem stage3_src_perm (missS missT : List Book) (hS : (missS.map Book.id).Nodup)
    (hT : (missT.map Book.id).Nodup) :
    (((exactPairsOf missS missT).map fun p => p.1) ++
      ((flexPairsOf missS missT).map fun p => p.1) ++
      missingFinalSrcOf missS missT).Perm missS := by
  have hEnodup : ((exactPairsOf missS missT).map fun p => p.1.id).Nodup :=
    pairsByKey_src_nodup _ _ _ _ (pairKeysBoth_nodup _ _ _) hS
  have hFnodup : ((flexPairsOf missS missT).map fun p => p.1.id).Nodup :=
    pairsByKey_src_nodup _ _ _ _ (flexMatchedKeys_nodup _ _) hS
  have hdisj : ∀ x, x ∈ (exactPairsOf missS missT).map (fun p => p.1.id) →
      x ∈ (flexPairsOf missS missT).map (fun p => p.1.id) → False := by
    intro x hxE hxF
    rcases List.mem_map.mp hxF with ⟨q, hq, rfl⟩
    exact (flexPairs_excl hq).1 hxE
  have hmemE : ∀ b ∈ (exactPairsOf missS missT).map (fun p => p.1), b ∈ missS := by
    intro b hb
    rcases List.mem_map.mp hb with ⟨p, hp, rfl⟩
    exact (pairsByKey_mem_sides hp).1.1
  have hmemF : ∀ b ∈ (flexPairsOf missS missT).map (fun p => p.1), b ∈ missS := by
    intro b hb
    rcases List.mem_map.mp hb with ⟨p, hp, rfl⟩
    exact (pairsByKey_mem_sides hp).1.1
  have hmem : ∀ b ∈ ((exactPairsOf missS missT).map fun p => p.1) ++
      ((flexPairsOf missS missT).map fun p => p.1), b ∈ missS := by
    intro b hb
    rcases List.mem_append.mp hb with hb | hb
    · exact hmemE b hb
    · exact hmemF b hb
  have hsubnodup : ((((exactPairsOf missS missT).map fun p => p.1) ++
      ((flexPairsOf missS missT).map fun p => p.1)).map Book.id).Nodup := by
    rw [List.map_append]
    rw [List.nodup_append]
    refine ⟨by simpa [List.map_map, Function.comp] using hEnodup,
      by simpa [List.map_map, Function.comp] using hFnodup, ?_⟩
    intro x hxE hxF
    refine hdisj x ?_ ?_
    · simpa [List.map_map, Function.comp] using hxE
    · simpa [List.map_map, Function.comp] using hxF
  have hmiss : missingFinalSrcOf missS missT = missS.filter fun b =>
      !decide (b.id ∈ (((exactPairsOf missS missT).map fun p => p.1) ++
        ((flexPairsOf missS missT).map fun p => p.1)).map Book.id) := by
    unfold missingFinalSrcOf
    refine List.filter_congr fun b _ => ?_
    have hl : ((((exactPairsOf missS missT).map fun p => p.1) ++
        ((flexPairsOf missS missT).map fun p => p.1)).map Book.id) =
        ((exactPairsOf missS missT).map fun p => p.1.id) ++
          ((flexPairsOf missS missT).map fun p => p.1.id) := by
      simp only [List.map_append, List.map_map]
      rfl
    rw [hl]
    exact not_mem_append_bool
  have hperm := sub_filter_perm (((exactPairsOf missS missT).map fun p => p.1) ++
    ((flexPairsOf missS missT).map fun p => p.1)) missS hmem hS hsubnodup
  rw [hmiss]
  exact (List.append_assoc _ _ _) ▸ hperm

/-- The fallback tiers partition the target-side missing list. -/
theorem stage3_tgt_perm (missS missT : List Book) (hS : (missS.map Book.id).Nodup)
    (hT : (missT.map Book.id).Nodup) :
    (((exactPairsOf missS missT).map fun p => p.2) ++
      ((flexPairsOf missS missT).map fun p => p.2) ++
      missingFinalTgtOf missS missT).Perm missT := by
  have hEnodup : ((exactPairsOf missS missT).map fun p => p.2.id).Nodup :=
    pairsByKey_tgt_nodup _ _ _ _ (pairKeysBoth_nodup _ _ _) hT
  have hFnodup : ((flexPairsOf missS missT).map fun p => p.2.id).Nodup :=
    pairsByKey_tgt_nodup _ _ _ _ (flexMatchedKeys_nodup _ _) hT
  have hdisj : ∀ x, x ∈ (exactPairsOf missS missT).map (fun p => p.2.id) →
      x ∈ (flexPairsOf missS missT).map (fun p => p.2.id) → False := by
    intro x hxE hxF
    rcases List.mem_map.mp hxF with ⟨q, hq, rfl⟩
    exact (flexPairs_excl hq).2 hxE
  have hmem : ∀ b ∈ ((exactPairsOf missS missT).map fun p => p.2) ++
      ((flexPairsOf missS missT).map fun p => p.2), b ∈ missT := by
    intro b hb
    rcases List.mem_append.mp hb with hb | hb
    · rcases List.mem_map.mp hb with ⟨p, hp, rfl⟩
      exact (pairsByKey_mem_sides hp).2.1
    · rcases List.mem_map.mp hb with ⟨p, hp, rfl⟩
      exact (pairsByKey_mem_sides hp).2.1
  have hsubnodup : ((((exactPairsOf missS missT).map fun p => p.2) ++
      ((flexPairsOf missS missT).map fun p => p.2)).map Book.id).Nodup := by
    rw [List.map_append]
    rw [List.nodup_append]
    refine ⟨by simpa [List.map_map, Function.comp] using hEnodup,
      by simpa [List.map_map, Function.comp] using hFnodup, ?_⟩
    intro x hxE hxF
    refine hdisj x ?_ ?_
    · simpa [List.map_map, Function.comp] using hxE
    · simpa [List.map_map, Function.comp] using hxF
  have hmiss : missingFinalTgtOf missS missT = missT.filter fun b =>
      !decide (b.id ∈ (((exactPairsOf missS missT).map fun p => p.2) ++
        ((flexPairsOf missS missT).map fun p => p.2)).map Book.id) := by
    unfold missingFinalTgtOf
    refine List.filter_congr fun b _ => ?_
    have hl : ((((exactPairsOf missS missT).map fun p => p.2) ++
        ((flexPairsOf missS missT).map fun p => p.2)).map Book.id) =
        ((exactPairsOf missS missT).map fun p => p.2.id) ++
          ((flexPairsOf missS missT).map fun p => p.2.id) := by
      simp only [List.map_append, List.map_map]
      rfl
    rw [hl]
    exact not_mem_append_bool
  have hperm := sub_filter_perm (((exactPairsOf missS missT).map fun p => p.2) ++
    ((flexPairsOf missS missT).map fun p => p.2)) missT hmem hT hsubnodup
  rw [hmiss]
  exact (List.append_assoc _ _ _) ▸ hperm

/-! ## Field equations of compareServers -/

theorem compareServers_primary (src tgt : List Book) :
    (compareServers src tgt).primary = primaryGroups src tgt := rfl

theorem compareServers_overlap (src tgt : List Book) :
    (compareServers src tgt).author_overlap = authorOverlapPairs src tgt := rfl

theorem compareServers_exact (src tgt : List Book) :
    (compareServers src tgt).fallback_exact =
      exactPairsOf (missingAfterOverlapSrc src tgt) (missingAfterOverlapTgt src tgt) := rfl

theorem compareServers_flex (src tgt : List Book) :
    (compareServers src tgt).fallback_flexible =
      flexPairsOf (missingAfterOverlapSrc src tgt) (missingAfterOverlapTgt src tgt) := rfl

theorem compareServers_missT (src tgt : List Book) :
    (compareServers src tgt).missing_in_target =
      missingFinalSrcOf (missingAfterOverlapSrc src tgt) (missingAfterOverlapTgt src tgt) := rfl

theorem compareServers_missS (src tgt : List Book) :
    (compareServers src tgt).missing_in_source =
      missingFinalTgtOf (missingAfterOverlapSrc src tgt) (missingAfterOverlapTgt src tgt) := rfl

theorem compareServers_srcTotal (src tgt : List Book) :
    (compareServers src tgt).source_total = src.length := rfl

theorem compareServers_tgtTotal (src tgt : List Book) :
    (compareServers src tgt).target_total = tgt.length := rfl

/-- The items of all match groups together with the final missing list are a
permutation of the catalog, on each side. -/
theorem compare_partition_items (src tgt : List Book)
    (hs : (src.map Book.id).Nodup) (ht : (tgt.map Book.id).Nodup) :
    (((compareServers src tgt).primary.flatMap fun g => g.sourceItems) ++
        (((compareServers src tgt).author_overlap.map fun p => p.1) ++
          (((compareServers src tgt).fallback_exact.map fun p => p.1) ++
            (((compareServers src tgt).fallback_flexible.map fun p => p.1) ++
              (compareServers src tgt).missing_in_target)))).Perm src
    ∧ (((compareServers src tgt).primary.flatMap fun g => g.targetItems) ++
        (((compareServers src tgt).author_overlap.map fun p => p.2) ++
          (((compareServers src tgt).fallback_exact.map fun p => p.2) ++
            (((compareServers src tgt).fallback_flexible.map fun p => p.2) ++
              (compareServers src tgt).missing_in_source)))).Perm tgt := by
  rw [compareServers_primary, compareServers_overlap, compareServers_exact,
    compareServers_flex, compareServers_missT, compareServers_missS]
  have hmissS1 : ((missingAfterPrimarySrc src tgt).map Book.id).Nodup := nodup_ids_filter _ hs
  have hmissT1 : ((missingAfterPrimaryTgt src tgt).map Book.id).Nodup := nodup_ids_filter _ ht
  have hmissS2 : ((missingAfterOverlapSrc src tgt).map Book.id).Nodup :=
    nodup_ids_filter _ hmissS1
  have hmissT2 : ((missingAfterOverlapTgt src tgt).map Book.id).Nodup :=
    nodup_ids_filter _ hmissT1
  constructor
  · have h3 := stage3_src_perm (missingAfterOverlapSrc src tgt)
      (missingAfterOverlapTgt src tgt) hmissS2 hmissT2
    have h3' : ((exactPairsOf (missingAfterOverlapSrc src tgt)
          (missingAfterOverlapTgt src tgt)).map (fun p => p.1) ++
        ((flexPairsOf (missingAfterOverlapSrc src tgt)
            (missingAfterOverlapTgt src tgt)).map (fun p => p.1) ++
          missingFinalSrcOf (missingAfterOverlapSrc src tgt)
            (missingAfterOverlapTgt src tgt))).Perm
        (missingAfterOverlapSrc src tgt) := by simpa [List.append_assoc] using h3
    have h2 := stage2_src_perm src tgt hs ht
    have h23 : (((authorOverlapPairs src tgt).map fun p => p.1) ++
        ((exactPairsOf (missingAfterOverlapSrc src tgt)
            (missingAfterOverlapTgt src tgt)).map (fun p => p.1) ++
          ((flexPairsOf (missingAfterOverlapSrc src tgt)
              (missingAfterOverlapTgt src tgt)).map (fun p => p.1) ++
            missingFinalSrcOf (missingAfterOverlapSrc src tgt)
              (missingAfterOverlapTgt src tgt)))).Perm
        (missingAfterPrimarySrc src tgt) :=
      (((List.Perm.refl _).append h3')).trans h2
    have h1 := primaryGroups_src_perm src tgt
    exact ((h1.append h23)).trans (primary_partition_src src tgt)
  · have h3 := stage3_tgt_perm (missingAfterOverlapSrc src tgt)
      (missingAfterOverlapTgt src tgt) hmissS2 hmissT2
    have h3' : ((exactPairsOf (missingAfterOverlapSrc src tgt)
          (missingAfterOverlapTgt src tgt)).map (fun p => p.2) ++
        ((flexPairsOf (missingAfterOverlapSrc src tgt)
            (missingAfterOverlapTgt src tgt)).map (fun p => p.2) ++
          missingFinalTgtOf (missingAfterOverlapSrc src tgt)
            (missingAfterOverlapTgt src tgt))).Perm
        (missingAfterOverlapTgt src tgt) := by simpa [List.append_assoc] using h3
    have h2 := stage2_tgt_perm src tgt ht
    have h23 : (((authorOverlapPairs src tgt).map fun p => p.2) ++
        ((exactPairsOf (missingAfterOverlapSrc src tgt)
            (missingAfterOverlapTgt src tgt)).map (fun p => p.2) ++
          ((flexPairsOf (missingAfterOverlapSrc src tgt)
              (missingAfterOverlapTgt src tgt)).map (fun p => p.2) ++
            missingFinalTgtOf (missingAfterOverlapSrc src tgt)
              (missingAfterOverlapTgt src tgt)))).Perm
        (missingAfterPrimaryTgt src tgt) :=
      (((List.Perm.refl _).append h3')).trans h2
    have h1 := primaryGroups_tgt_perm src tgt
    exact ((h1.append h23)).trans (primary_partition_tgt src tgt)

/-- C1: for any two id-Nodup catalogs, the matcher's output is a total and
disjoint partition — every source id occurs exactly once across the match
groups (primary, author-overlap, fallback-exact, fallback-flexible) and the
final missing_in_target list, together a permutation of the source ids, and
the group-item count plus the missing count equals the source total; and
symmetrically for the target side. -/
theorem matcher_output_total_partition (src tgt : List Book)
    (hs : (src.map Book.id).Nodup) (ht : (tgt.map Book.id).Nodup) :
    (((((compareServers src tgt).primary.flatMap fun g => g.sourceItems) ++
        (((compareServers src tgt).author_overlap.map fun p => p.1) ++
          (((compareServers src tgt).fallback_exact.map fun p => p.1) ++
            (((compareServers src tgt).fallback_flexible.map fun p => p.1) ++
              (compareServers src tgt).missing_in_target)))).map Book.id).Perm
      (src.map Book.id))
    ∧ (((((compareServers src tgt).primary.flatMap fun g => g.targetItems) ++
        (((compareServers src tgt).author_overlap.map fun p => p.2) ++
          (((compareServers src tgt).fallback_exact.map fun p => p.2) ++
            (((compareServers src tgt).fallback_flexible.map fun p => p.2) ++
              (compareServers src tgt).missing_in_source)))).map Book.id).Perm
      (tgt.map Book.id))
    ∧ ((compareServers src tgt).primary.flatMap fun g => g.sourceItems).length
        + (compareServers src tgt).author_overlap.length
        + (compareServers src tgt).fallback_exact.length
        + (compareServers src tgt).fallback_flexible.length
        + (compareServers src tgt).missing_in_target.length
        = (compareServers src tgt).source_total
    ∧ ((compareServers src tgt).primary.flatMap fun g => g.targetItems).length
        + (compareServers src tgt).author_overlap.length
        + (compareServers src tgt).fallback_exact.length
        + (compareServers src tgt).fallback_flexible.length
        + (compareServers src tgt).missing_in_source.length
        = (compareServers src tgt).target_total := by
  obtain ⟨hsrc, htgt⟩ := compare_partition_items src tgt hs ht
  refine ⟨hsrc.map Book.id, htgt.map Book.id, ?_, ?_⟩
  · have hlen := hsrc.length_eq
    rw [compareServers_srcTotal]
    simp only [List.length_append, List.length_map] at hlen ⊢
    omega
  · have hlen := htgt.length_eq
    rw [compareServers_tgtTotal]
    simp only [List.length_append, List.length_map] at hlen ⊢
    omega

def partitionWitnessSrc : List Book :=
  [⟨"cw1", "Alpha Beta", "Carol Smith", 10, 100⟩, ⟨"cw2", "Gamma Delta", "Dave Jones", 0, 0⟩]

def partitionWitnessTgt : List Book :=
  [⟨"cw3", "Alpha Beta", "Carol Smith", 10, 100⟩]

theorem matcher_output_total_partition_witness :
    ((partitionWitnessSrc.map Book.id).Nodup ∧ (partitionWitnessTgt.map Book.id).Nodup)
    ∧ ((((((compareServers partitionWitnessSrc partitionWitnessTgt).primary.flatMap
            fun g => g.sourceItems) ++
        (((compareServers partitionWitnessSrc partitionWitnessTgt).author_overlap.map
            fun p => p.1) ++
          (((compareServers partitionWitnessSrc partitionWitnessTgt).fallback_exact.map
              fun p => p.1) ++
            (((compareServers partitionWitnessSrc partitionWitnessTgt).fallback_flexible.map
                fun p => p.1) ++
              (compareServers partitionWitnessSrc partitionWitnessTgt).missing_in_target)))).map
          Book.id).Perm (partitionWitnessSrc.map Book.id))
    ∧ (((((compareServers partitionWitnessSrc partitionWitnessTgt).primary.flatMap
            fun g => g.targetItems) ++
        (((compareServers partitionWitnessSrc partitionWitnessTgt).author_overlap.map
            fun p => p.2) ++
          (((compareServers partitionWitnessSrc partitionWitnessTgt).fallback_exact.map
              fun p => p.2) ++
            (((compareServers partitionWitnessSrc partitionWitnessTgt).fallback_flexible.map
                fun p => p.2) ++
              (compareServers partitionWitnessSrc partitionWitnessTgt).missing_in_source)))).map
          Book.id).Perm (partitionWitnessTgt.map Book.id))
    ∧ ((compareServers partitionWitnessSrc partitionWitnessTgt).primary.flatMap
          fun g => g.sourceItems).length
        + (compareServers partitionWitnessSrc partitionWitnessTgt).author_overlap.length
        + (compareServers partitionWitnessSrc partitionWitnessTgt).fallback_exact.length
        + (compareServers partitionWitnessSrc partitionWitnessTgt).fallback_flexible.length
        + (compareServers partitionWitnessSrc partitionWitnessTgt).missing_in_target.length
        = (compareServers partitionWitnessSrc partitionWitnessTgt).source_total
    ∧ ((compareServers partitionWitnessSrc partitionWitnessTgt).primary.flatMap
          fun g => g.targetItems).length
        + (compareServers partitionWitnessSrc partitionWitnessTgt).author_overlap.length
        + (compareServers partitionWitnessSrc partitionWitnessTgt).fallback_exact.length
        + (compareServers partitionWitnessSrc partitionWitnessTgt).fallback_flexible.length
        + (compareServers partitionWitnessSrc partitionWitnessTgt).missing_in_source.length
        = (compareServers partitionWitnessSrc partitionWitnessTgt).target_total) :=
  ⟨⟨by decide, by decide⟩,
    matcher_output_total_partition partitionWitnessSrc partitionWitnessTgt
      (by decide) (by decide)⟩

/-! ## Tier precedence facts -/

theorem miss1_src_facts {src tgt : List Book} {b : Book}
    (h : b ∈ missingAfterPrimarySrc src tgt) :
    b ∈ src ∧ createBookKey b ∉ primaryKeysOf tgt := by
  unfold missingAfterPrimarySrc at h
  refine ⟨List.mem_of_mem_filter h, ?_⟩
  have hp := List.of_mem_filter h
  simpa using hp

theorem miss1_tgt_facts {src tgt : List Book} {b : Book}
    (h : b ∈ missingAfterPrimaryTgt src tgt) :
    b ∈ tgt ∧ createBookKey b ∉ primaryKeysOf src := by
  unfold missingAfterPrimaryTgt at h
  refine ⟨List.mem_of_mem_filter h, ?_⟩
  have hp := List.of_mem_filter h
  simpa using hp

theorem miss2_src_facts {src tgt : List Book} {b : Book}
    (h : b ∈ missingAfterOverlapSrc src tgt) :
    b ∈ missingAfterPrimarySrc src tgt
      ∧ b.id ∉ (authorOverlapPairs src tgt).map (fun p => p.1.id) := by
  unfold missingAfterOverlapSrc at h
  refine ⟨List.mem_of_mem_filter h, ?_⟩
  have hp := List.of_mem_filter h
  simpa using hp

theorem miss2_tgt_facts {src tgt : List Book} {b : Book}
    (h : b ∈ missingAfterOverlapTgt src tgt) :
    b ∈ missingAfterPrimaryTgt src tgt
      ∧ b.id ∉ (authorOverlapPairs src tgt).map (fun p => p.2.id) := by
  unfold missingAfterOverlapTgt at h
  refine ⟨List.mem_of_mem_filter h, ?_⟩
  have hp := List.of_mem_filter h
  simpa using hp

/-- Membership structure of the greedy pairing, with no Nodup assumption. -/
theorem tier2Go_mem (cond : Book → Book → Bool) :
    ∀ (ss ts : List Book),
      (((tier2Go cond ss ts).map fun p => p.1).Sublist ss)
      ∧ (∀ p ∈ tier2Go cond ss ts, p.2 ∈ ts)
  | [], ts => by simp [tier2Go]
  | s :: ss, ts => by
    unfold tier2Go
    cases hpick : pickTier2Target cond s ts with
    | none =>
      obtain ⟨h1, h2⟩ := tier2Go_mem cond ss ts
      exact ⟨h1.cons s, h2⟩
    | some pr =>
      obtain ⟨t, rest⟩ := pr
      have hperm := pickTier2Target_perm cond s ts t rest hpick
      obtain ⟨h1, h2⟩ := tier2Go_mem cond ss rest
      refine ⟨by simpa using h1.cons₂ s, ?_⟩
      intro p hp
      rcases List.mem_cons.mp hp with rfl | hp2
      · exact hperm.mem_iff.mpr (List.mem_cons_self _ _)
      · exact hperm.mem_iff.mpr (List.mem_cons_of_mem _ (h2 p hp2))

/-- Every tier-2 pair is built from the post-primary missing lists. -/
theorem overlapPairs_mem {src tgt : List Book} {p : Book × Book}
    (h : p ∈ authorOverlapPairs src tgt) :
    p.1 ∈ missingAfterPrimarySrc src tgt ∧ p.2 ∈ missingAfterPrimaryTgt src tgt := by
  obtain ⟨h1, h2⟩ := tier2Go_mem tier2Cond
    (titleGroupOrder (missingAfterPrimarySrc src tgt)) (missingAfterPrimaryTgt src tgt)
  constructor
  · have : p.1 ∈ titleGroupOrder (missingAfterPrimarySrc src tgt) :=
      h1.subset (List.mem_map_of_mem (fun q => q.1) h)
    exact (titleGroupOrder_perm _).mem_iff.mp this
  · exact h2 p h

/-- C2: for any two id-Nodup catalogs, an item consumed by a tier never
appears in a later tier's groups: an item whose primary key is present on
the other side appears in no author-overlap or fallback group; an item of an
author-overlap pair appears in no fallback group; an item of a
fallback-exact pair appears in no fallback-flexible group.  Both sides. -/
theorem matcher_tier_precedence (src tgt : List Book)
    (hs : (src.map Book.id).Nodup) (ht : (tgt.map Book.id).Nodup) :
    (∀ b ∈ src, createBookKey b ∈ primaryKeysOf tgt →
      b.id ∉ ((compareServers src tgt).author_overlap.map fun p => p.1.id)
      ∧ b.id ∉ ((compareServers src tgt).fallback_exact.map fun p => p.1.id)
      ∧ b.id ∉ ((compareServers src tgt).fallback_flexible.map fun p => p.1.id))
    ∧ (∀ b ∈ tgt, createBookKey b ∈ primaryKeysOf src →
      b.id ∉ ((compareServers src tgt).author_overlap.map fun p => p.2.id)
      ∧ b.id ∉ ((compareServers src tgt).fallback_exact.map fun p => p.2.id)
      ∧ b.id ∉ ((compareServers src tgt).fallback_flexible.map fun p => p.2.id))
    ∧ (∀ p ∈ (compareServers src tgt).author_overlap,
      p.1.id ∉ ((compareServers src tgt).fallback_exact.map fun q => q.1.id)
      ∧ p.1.id ∉ ((compareServers src tgt).fallback_flexible.map fun q => q.1.id)
      ∧ p.2.id ∉ ((compareServers src tgt).fallback_exact.map fun q => q.2.id)
      ∧ p.2.id ∉ ((compareServers src tgt).fallback_flexible.map fun q => q.2.id))
    ∧ (∀ p ∈ (compareServers src tgt).fallback_exact,
      p.1.id ∉ ((compareServers src tgt).fallback_flexible.map fun q => q.1.id)
      ∧ p.2.id ∉ ((compareServers src tgt).fallback_flexible.map fun q => q.2.id)) := by
  rw [compareServers_overlap, compareServers_exact, compareServers_flex]
  have hsrcNotMiss : ∀ b ∈ src, createBookKey b ∈ primaryKeysOf tgt →
      ∀ b2 ∈ missingAfterPrimarySrc src tgt, b2.id ≠ b.id := by
    intro b hb hkey b2 hb2 hid
    obtain ⟨hb2src, hb2key⟩ := miss1_src_facts hb2
    have : b2 = b := book_eq_of_id_eq hs hb2src hb hid
    exact hb2key (this ▸ hkey)
  have htgtNotMiss : ∀ b ∈ tgt, createBookKey b ∈ primaryKeysOf src →
      ∀ b2 ∈ missingAfterPrimaryTgt src tgt, b2.id ≠ b.id := by
    intro b hb hkey b2 hb2 hid
    obtain ⟨hb2tgt, hb2key⟩ := miss1_tgt_facts hb2
    have : b2 = b := book_eq_of_id_eq ht hb2tgt hb hid
    exact hb2key (this ▸ hkey)
  refine ⟨?_, ?_, ?_, ?_⟩
  · intro b hb hkey
    refine ⟨?_, ?_, ?_⟩
    · intro hmem
      rcases List.mem_map.mp hmem with ⟨p, hp, hpid⟩
      exact hsrcNotMiss b hb hkey p.1 (overlapPairs_mem hp).1 hpid
    · intro hmem
      rcases List.mem_map.mp hmem with ⟨p, hp, hpid⟩
      have hp1 := (pairsByKey_mem_sides hp).1.1
      exact hsrcNotMiss b hb hkey p.1 (miss2_src_facts hp1).1 hpid
    · intro hmem
      rcases List.mem_map.mp hmem with ⟨p, hp, hpid⟩
      have hp1 := (pairsByKey_mem_sides hp).1.1
      exact hsrcNotMiss b hb hkey p.1 (miss2_src_facts hp1).1 hpid
  · intro b hb hkey
    refine ⟨?_, ?_, ?_⟩
    · intro hmem
      rcases List.mem_map.mp hmem with ⟨p, hp, hpid⟩
      exact htgtNotMiss b hb hkey p.2 (overlapPairs_mem hp).2 hpid
    · intro hmem
      rcases List.mem_map.mp hmem with ⟨p, hp, hpid⟩
      have hp2 := (pairsByKey_mem_sides hp).2.1
      exact htgtNotMiss b hb hkey p.2 (miss2_tgt_facts hp2).1 hpid
    · intro hmem
      rcases List.mem_map.mp hmem with ⟨p, hp, hpid⟩
      have hp2 := (pairsByKey_mem_sides hp).2.1
      exact htgtNotMiss b hb hkey p.2 (miss2_tgt_facts hp2).1 hpid
  · intro p hp
    have hpid1 : p.1.id ∈ (authorOverlapPairs src tgt).map fun q => q.1.id :=
      List.mem_map_of_mem _ hp
    have hpid2 : p.2.id ∈ (authorOverlapPairs src tgt).map fun q => q.2.id :=
      List.mem_map_of_mem _ hp
    refine ⟨?_, ?_, ?_, ?_⟩
    · intro hmem
      rcases List.mem_map.mp hmem with ⟨q, hq, hqid⟩
      have hq1 := (pairsByKey_mem_sides hq).1.1
      exact (miss2_src_facts hq1).2 (hqid ▸ hpid1)
    · intro hmem
      rcases List.mem_map.mp hmem with ⟨q, hq, hqid⟩
      have hq1 := (pairsByKey_mem_sides hq).1.1
      exact (miss2_src_facts hq1).2 (hqid ▸ hpid1)
    · intro hmem
      rcases List.mem_map.mp hmem with ⟨q, hq, hqid⟩
      have hq2 := (pairsByKey_mem_sides hq).2.1
      exact (miss2_tgt_facts hq2).2 (hqid ▸ hpid2)
    · intro hmem
      rcases List.mem_map.mp hmem with ⟨q, hq, hqid⟩
      have hq2 := (pairsByKey_mem_sides hq).2.1
      exact (miss2_tgt_facts hq2).2 (hqid ▸ hpid2)
  · intro p hp
    have hpid1 : p.1.id ∈ (exactPairsOf (missingAfterOverlapSrc src tgt)
        (missingAfterOverlapTgt src tgt)).map fun q => q.1.id := List.mem_map_of_mem _ hp
    have hpid2 : p.2.id ∈ (exactPairsOf (missingAfterOverlapSrc src tgt)
        (missingAfterOverlapTgt src tgt)).map fun q => q.2.id := List.mem_map_of_mem _ hp
    constructor
    · intro hmem
      rcases List.mem_map.mp hmem with ⟨q, hq, hqid⟩
      exact (flexPairs_excl hq).1 (hqid ▸ hpid1)
    · intro hmem
      rcases List.mem_map.mp hmem with ⟨q, hq, hqid⟩
      exact (flexPairs_excl hq).2 (hqid ▸ hpid2)

def precedenceWitnessSrc : List Book :=
  [⟨"pw1", "Echo Foxtrot", "Grace Hopper", 7, 70⟩]

def precedenceWitnessTgt : List Book :=
  [⟨"pw2", "Echo Foxtrot", "Grace Hopper", 7, 70⟩]

theorem matcher_tier_precedence_witness :
    ((precedenceWitnessSrc.map Book.id).Nodup ∧ (precedenceWitnessTgt.map Book.id).Nodup
      ∧ ⟨"pw1", "Echo Foxtrot", "Grace Hopper", 7, 70⟩ ∈ precedenceWitnessSrc
      ∧ createBookKey ⟨"pw1", "Echo Foxtrot", "Grace Hopper", 7, 70⟩
          ∈ primaryKeysOf precedenceWitnessTgt)
    ∧ ("pw1" ∉ ((compareServers precedenceWitnessSrc precedenceWitnessTgt).author_overlap.map
          fun p => p.1.id)
      ∧ "pw1" ∉ ((compareServers precedenceWitnessSrc precedenceWitnessTgt).fallback_exact.map
          fun p => p.1.id)
      ∧ "pw1" ∉ ((compareServers precedenceWitnessSrc precedenceWitnessTgt).fallback_flexible.map
          fun p => p.1.id)) :=
  ⟨⟨by decide, by decide, by decide, by decide⟩,
    (matcher_tier_precedence precedenceWitnessSrc precedenceWitnessTgt
      (by decide) (by decide)).1 ⟨"pw1", "Echo Foxtrot", "Grace Hopper", 7, 70⟩
      (by decide) (by decide)⟩

/-! ## Idempotence of the normalizers (spec section 4.1 / 8) -/

/-- C3 counterexample: neither normalizer is idempotent.  A second pass over
"the the cat" strips a further leading article exposed by the first pass,
and a second pass over "audio.book" clears the string because punctuation
removal assembled the publisher token "audiobook". -/
theorem normalize_not_idempotent_counterexample :
    normalizeTitle (normalizeTitle "the the cat") ≠ normalizeTitle "the the cat"
    ∧ normalizeAuthor (normalizeAuthor "audio.book") ≠ normalizeAuthor "audio.book"
    ∧ normalizeTitle "the the cat" = "the cat"
    ∧ normalizeTitle "the cat" = "cat"
    ∧ normalizeAuthor "audio.book" = "audiobook"
    ∧ normalizeAuthor "audiobook" = "" := by decide

/-- C3 amended: idempotence does not hold for every string; it does hold on
the specification's own scenario strings. -/
theorem normalize_idempotent_on_scenarios :
    normalizeTitle (normalizeTitle "Steelheart: A Reckoners Novel")
      = normalizeTitle "Steelheart: A Reckoners Novel"
    ∧ normalizeTitle (normalizeTitle "Who Moved My Cheese")
      = normalizeTitle "Who Moved My Cheese"
    ∧ normalizeAuthor (normalizeAuthor "Spencer Johnson")
      = normalizeAuthor "Spencer Johnson"
    ∧ normalizeAuthor (normalizeAuthor "Spencer Johnson, Kenneth Blanchard")
      = normalizeAuthor "Spencer Johnson, Kenneth Blanchard" := by decide

/-! ## The author-overlap scenario of spec section 8 (claim C4) -/

def cheeseSrc : List Book :=
  [⟨"s1", "Who Moved My Cheese", "Spencer Johnson", 0, 0⟩]

def cheeseTgt : List Book :=
  [⟨"t1", "Who Moved My Cheese", "Spencer Johnson, Kenneth Blanchard", 0, 0⟩]

/-- C4 counterexample: the two cheese items are not paired by the
author-overlap tier — the matcher produces no author-overlap group at all on
these catalogs, and it does produce a primary group. -/
theorem cheese_not_author_overlap :
    (compareServers cheeseSrc cheeseTgt).author_overlap = []
    ∧ (compareServers cheeseSrc cheeseTgt).primary ≠ [] := by decide

/-- C4 amended: _normalize_author reduces "Spencer Johnson, Kenneth
Blanchard" to "spencer johnson", so both items carry the same primary key
and the pair matches at tier 1 (primary), leaving every later tier empty
and no item missing. -/
theorem cheese_matches_at_primary :
    normalizeAuthor "Spencer Johnson, Kenneth Blanchard" = "spencer johnson"
    ∧ compareServers cheeseSrc cheeseTgt =
      { missing_in_target := []
        missing_in_source := []
        common_books := cheeseSrc
        author_overlap_matches := 0
        fallback_matches := 0
        source_total := 1
        target_total := 1
        primary := [{ key := "spencer johnson|who moved my cheese"
                      sourceItems := cheeseSrc
                      targetItems := cheeseTgt }]
        author_overlap := []
        fallback_exact := []
        fallback_flexible := [] } := by decide

/-! ## Fallback keys require a positive size (claim C9) -/

/-- C9: an item whose extracted size is 0 gets no fallback key of either
kind and can never appear in a fallback-exact or fallback-flexible group on
either side; an item with positive size gets exactly the exact key
normalizedTitle|durationSeconds|sizeBytes, with the literal "unknown" in
place of the duration when the duration is not positive. -/
theorem fallback_requires_positive_size (src tgt : List Book)
    (hs : (src.map Book.id).Nodup) (ht : (tgt.map Book.id).Nodup) :
    (∀ b : Book, b.size = 0 →
      createFallbackKey b = none ∧ createFlexibleFallbackKey b = none)
    ∧ (∀ b : Book, 0 < b.size →
      createFallbackKey b = some (normalizeTitle b.title ++ "|" ++
        (if 0 < b.duration then toString b.duration else "unknown") ++ "|" ++
        toString b.size))
    ∧ (∀ b ∈ src, b.size = 0 →
      b.id ∉ ((compareServers src tgt).fallback_exact.map fun p => p.1.id)
      ∧ b.id ∉ ((compareServers src tgt).fallback_flexible.map fun p => p.1.id))
    ∧ (∀ b ∈ tgt, b.size = 0 →
      b.id ∉ ((compareServers src tgt).fallback_exact.map fun p => p.2.id)
      ∧ b.id ∉ ((compareServers src tgt).fallback_flexible.map fun p => p.2.id)) := by
  have hnone : ∀ b : Book, b.size = 0 →
      createFallbackKey b = none ∧ createFlexibleFallbackKey b = none := by
    intro b h
    constructor
    · unfold createFallbackKey extractBookMetadata
      simp [h]
    · unfold createFlexibleFallbackKey extractBookMetadata
      simp [h]
  have hsome : ∀ b : Book, 0 < b.size →
      createFallbackKey b = some (normalizeTitle b.title ++ "|" ++
        (if 0 < b.duration then toString b.duration else "unknown") ++ "|" ++
        toString b.size) := by
    intro b h
    unfold createFallbackKey extractBookMetadata
    simp [h]
  rw [compareServers_exact, compareServers_flex]
  have hmem2src : ∀ b2 ∈ missingAfterOverlapSrc src tgt, b2 ∈ src := fun b2 h =>
    (miss1_src_facts (miss2_src_facts h).1).1
  have hmem2tgt : ∀ b2 ∈ missingAfterOverlapTgt src tgt, b2 ∈ tgt := fun b2 h =>
    (miss1_tgt_facts (miss2_tgt_facts h).1).1
  refine ⟨hnone, hsome, ?_, ?_⟩
  · intro b hb hsz
    constructor
    · intro hmem
      rcases List.mem_map.mp hmem with ⟨p, hp, hpid⟩
      obtain ⟨hp1, k, hk, -⟩ := (pairsByKey_mem_sides hp).1
      have : p.1 = b := book_eq_of_id_eq hs (hmem2src p.1 hp1) hb hpid
      rw [this, (hnone b hsz).1] at hk
      exact absurd hk (by simp)
    · intro hmem
      rcases List.mem_map.mp hmem with ⟨p, hp, hpid⟩
      obtain ⟨hp1, k, hk, -⟩ := (pairsByKey_mem_sides hp).1
      have : p.1 = b := book_eq_of_id_eq hs (hmem2src p.1 hp1) hb hpid
      rw [this, (hnone b hsz).2] at hk
      exact absurd hk (by simp)
  · intro b hb hsz
    constructor
    · intro hmem
      rcases List.mem_map.mp hmem with ⟨p, hp, hpid⟩
      obtain ⟨hp2, k, hk, -⟩ := (pairsByKey_mem_sides hp).2
      have : p.2 = b := book_eq_of_id_eq ht (hmem2tgt p.2 hp2) hb hpid
      rw [this, (hnone b hsz).1] at hk
      exact absurd hk (by simp)
    · intro hmem
      rcases List.mem_map.mp hmem with ⟨p, hp, hpid⟩
      obtain ⟨hp2, k, hk, -⟩ := (pairsByKey_mem_sides hp).2
      have : p.2 = b := book_eq_of_id_eq ht (hmem2tgt p.2 hp2) hb hpid
      rw [this, (hnone b hsz).2] at hk
      exact absurd hk (by simp)

def sizeZeroWitnessSrc : List Book :=
  [⟨"sz1", "Hotel India", "Juliet Kilo", 0, 0⟩]

def sizeZeroWitnessTgt : List Book :=
  [⟨"sz2", "Hotel India", "Lima Mike", 900, 50⟩]

theorem fallback_requires_positive_size_witness :
    ((sizeZeroWitnessSrc.map Book.id).Nodup ∧ (sizeZeroWitnessTgt.map Book.id).Nodup
      ∧ (⟨"sz1", "Hotel India", "Juliet Kilo", 0, 0⟩ : Book).size = 0
      ∧ (0 : Nat) < (⟨"sz2", "Hotel India", "Lima Mike", 900, 50⟩ : Book).size)
    ∧ createFallbackKey ⟨"sz1", "Hotel India", "Juliet Kilo", 0, 0⟩ = none
    ∧ createFlexibleFallbackKey ⟨"sz1", "Hotel India", "Juliet Kilo", 0, 0⟩ = none
    ∧ createFallbackKey ⟨"sz2", "Hotel India", "Lima Mike", 900, 50⟩ =
        some (normalizeTitle "Hotel India" ++ "|" ++
          (if 0 < (900 : Nat) then toString (900 : Nat) else "unknown") ++ "|" ++
          toString (50 : Nat))
    ∧ ("sz1" ∉ ((compareServers sizeZeroWitnessSrc sizeZeroWitnessTgt).fallback_exact.map
          fun p => p.1.id)
      ∧ "sz1" ∉ ((compareServers sizeZeroWitnessSrc sizeZeroWitnessTgt).fallback_flexible.map
          fun p => p.1.id)) :=
  ⟨⟨by decide, by decide, by decide, by decide⟩,
    ((fallback_requires_positive_size sizeZeroWitnessSrc sizeZeroWitnessTgt
        (by decide) (by decide)).1 _ (by decide)).1,
    ((fallback_requires_positive_size sizeZeroWitnessSrc sizeZeroWitnessTgt
        (by decide) (by decide)).1 _ (by decide)).2,
    (fallback_requires_positive_size sizeZeroWitnessSrc sizeZeroWitnessTgt
        (by decide) (by decide)).2.1 _ (by decide),
    (fallback_requires_positive_size sizeZeroWitnessSrc sizeZeroWitnessTgt
        (by decide) (by decide)).2.2.1 ⟨"sz1", "Hotel India", "Juliet Kilo", 0, 0⟩
      (by decide) (by decide)⟩

/-! ## Fallback key shadowing (claim C10) -/

def bkA : Book := ⟨"A", "aaa bbb", "alice aardvark", 0, 10485760⟩

def bkB : Book := ⟨"B", "aaa bbb", "bob builder", 0, 10485761⟩

def bkT : Book := ⟨"T", "aaa bbb", "tina turner", 0, 10485760⟩

/-- C10 counterexample: bkA and bkB are both still unmatched after tier 2
and share the flexible fallback key, with bkB inserted last (shadowing bkA
in the flexible dict); yet bkA does not remain in missing_in_target — it is
matched through its own exact fallback key, so a shadowed item can
participate in fallback matching after all. -/
theorem fallback_shadowed_item_matched :
    createFlexibleFallbackKey bkA = createFlexibleFallbackKey bkB
    ∧ createFallbackKey bkA ≠ createFallbackKey bkB
    ∧ missingAfterOverlapSrc [bkA, bkB] [bkT] = [bkA, bkB]
    ∧ ((compareServers [bkA, bkB] [bkT]).fallback_exact.map fun p => p.1.id) = ["A"]
    ∧ ((compareServers [bkA, bkB] [bkT]).missing_in_target.map Book.id) = ["B"] := by
  decide

/-- One-occurrence bound for filtering a list whose f-image is Nodup. -/
theorem length_filter_le_one_of_nodup_map {α β : Type} [DecidableEq β] (f : α → β) (c : β) :
    ∀ (l : List α), ((l.map f).Nodup) →
      (l.filter fun x => decide (f x = c)).length ≤ 1
  | [], _ => by simp
  | a :: l, h => by
    have h2 : (f a :: l.map f).Nodup := by rw [List.map_cons] at h; exact h
    have ha := (List.nodup_cons.mp h2).1
    have hl := (List.nodup_cons.mp h2).2
    by_cases hc : f a = c
    · have hnil : l.filter (fun x => decide (f x = c)) = [] := by
        rw [List.filter_eq_nil_iff]
        intro x hx hxc
        have hfx : f x = c := by simpa using hxc
        refine ha ?_
        rw [hc, ← hfx]
        exact List.mem_map_of_mem f hx
      simp [List.filter_cons, hc, hnil]
    · have := length_filter_le_one_of_nodup_map f c l hl
      simpa [List.filter_cons, hc] using this

/-- Each pair of a pairsByKey list is determined by its source-side key. -/
theorem pairsByKey_keys_src_nodup (keyf : Book → Option String) (missS missT : List Book)
    (ks : List String) (hks : ks.Nodup) :
    ((pairsByKey keyf missS missT ks).map fun p => keyf p.1).Nodup := by
  unfold pairsByKey
  refine nodup_map_filterMap _ _ ks hks ?_
  intro k1 k2 p1 p2 _ _ hg1 hg2 hf
  obtain ⟨hS1, -⟩ := pairsByKey_g_eq hg1
  obtain ⟨hS2, -⟩ := pairsByKey_g_eq hg2
  have e1 := (fallbackMap_eq_some hS1).2
  have e2 := (fallbackMap_eq_some hS2).2
  have : some k1 = some k2 := by rw [← e1, hf, e2]
  exact Option.some.inj this

/-- A dict value never is an item that a later item with the same key
shadows. -/
theorem fallbackMap_ne_shadowed {keyf : Book → Option String} {u v : List Book} {b1 b2 : Book}
    (hids : (((u ++ b1 :: v)).map Book.id).Nodup) (hb2 : b2 ∈ v)
    (hkeq : keyf b2 = keyf b1) :
    ∀ (k : String) (x : Book), fallbackMap keyf (u ++ b1 :: v) k = some x → x.id ≠ b1.id := by
  intro k x hx hid
  obtain ⟨hxmem, hxkey⟩ := fallbackMap_eq_some hx
  have hb1mem : b1 ∈ u ++ b1 :: v := by simp
  have hxb1 : x = b1 := book_eq_of_id_eq hids hxmem hb1mem hid
  rw [hxb1] at hxkey
  rw [fallbackMap_eq] at hx
  have hb2f : b2 ∈ v.filter fun b => decide (keyf b = some k) :=
    List.mem_filter.mpr ⟨hb2, by simp [hkeq, hxkey]⟩
  have hfil : (u ++ b1 :: v).filter (fun b => decide (keyf b = some k)) =
      u.filter (fun b => decide (keyf b = some k)) ++
        b1 :: v.filter (fun b => decide (keyf b = some k)) := by
    simp [List.filter_append, List.filter_cons, hxkey]
  rw [hfil] at hx
  have hne : (b1 :: v.filter fun b => decide (keyf b = some k)) ≠ [] := by simp
  rw [List.getLast?_append_of_ne_nil _ hne] at hx
  have hvne : (v.filter fun b => decide (keyf b = some k)) ≠ [] :=
    List.ne_nil_of_mem hb2f
  have hlast : (b1 :: v.filter fun b => decide (keyf b = some k)).getLast? =
      (v.filter fun b => decide (keyf b = some k)).getLast? := by
    cases hv : v.filter fun b => decide (keyf b = some k) with
    | nil => exact absurd hv hvne
    | cons y ys => simp [List.getLast?_cons_cons]
  rw [hlast] at hx
  have hy := List.mem_of_mem_getLast? hx
  have hyv : x ∈ v := List.mem_of_mem_filter hy
  have hcons : (b1.id :: (v.map Book.id)).Nodup := by
    have hperm : ((u ++ b1 :: v).map Book.id).Perm (b1.id :: ((u ++ v).map Book.id)) := by
      simpa using (@List.perm_middle _ b1 u v).map Book.id
    have h2 := hperm.nodup_iff.mp hids
    have h3 := List.nodup_cons.mp h2
    refine List.nodup_cons.mpr ⟨?_, ?_⟩
    · intro hmem
      exact h3.1 (by simp [List.map_append]; right; simpa using hmem)
    · exact h3.2.sublist (by simpa [List.map_append] using
        (List.sublist_append_right (u.map Book.id) (v.map Book.id)))
  have hxid : x.id ∈ v.map Book.id := List.mem_map_of_mem Book.id hyv
  rw [hid] at hxid
  exact (List.nodup_cons.mp hcons).1 hxid

/-- C10 amended: each distinct fallback key pairs at most one source item
with at most one target item per run; among still-unmatched same-side items
with equal normalized title, duration and size (hence equal exact and
flexible fallback keys), only the last one in insertion order can be a dict
value, so an earlier such item participates in no fallback group and stays
in missing_in_target.  (An item shadowed only in the flexible dict can still
match through its own exact key, as the counterexample shows.) -/
theorem fallback_key_last_writer_wins (src tgt : List Book)
    (hs : (src.map Book.id).Nodup) (ht : (tgt.map Book.id).Nodup)
    (u v : List Book) (b1 b2 : Book)
    (hsplit : missingAfterOverlapSrc src tgt = u ++ b1 :: v)
    (hb2 : b2 ∈ v)
    (htitle : normalizeTitle b1.title = normalizeTitle b2.title)
    (hdur : b1.duration = b2.duration)
    (hsz : b1.size = b2.size) :
    (∀ k : String, (((compareServers src tgt).fallback_exact).filter
        fun p : Book × Book => decide (createFallbackKey p.1 = some k)).length ≤ 1)
    ∧ (∀ k : String, (((compareServers src tgt).fallback_flexible).filter
        fun p : Book × Book => decide (createFlexibleFallbackKey p.1 = some k)).length ≤ 1)
    ∧ b1.id ∉ ((compareServers src tgt).fallback_exact.map fun p => p.1.id)
    ∧ b1.id ∉ ((compareServers src tgt).fallback_flexible.map fun p => p.1.id)
    ∧ b1 ∈ (compareServers src tgt).missing_in_target := by
  rw [compareServers_exact, compareServers_flex, compareServers_missT]
  have hmissS2 : ((missingAfterOverlapSrc src tgt).map Book.id).Nodup :=
    nodup_ids_filter _ (nodup_ids_filter _ hs)
  have hkeyE : createFallbackKey b2 = createFallbackKey b1 := by
    simp only [createFallbackKey, extractBookMetadata]
    rw [← htitle, ← hdur, ← hsz]
  have hkeyF : createFlexibleFallbackKey b2 = createFlexibleFallbackKey b1 := by
    simp only [createFlexibleFallbackKey, extractBookMetadata]
    rw [← htitle, ← hdur, ← hsz]
  have hnoval : ∀ (keyf : Book → Option String), keyf b2 = keyf b1 →
      ∀ (k : String) (x : Book),
        fallbackMap keyf (missingAfterOverlapSrc src tgt) k = some x → x.id ≠ b1.id := by
    intro keyf hkeq k x hx
    rw [hsplit] at hx
    exact fallbackMap_ne_shadowed (hsplit ▸ hmissS2) hb2 hkeq k x hx
  have hnotE : b1.id ∉ (exactPairsOf (missingAfterOverlapSrc src tgt)
      (missingAfterOverlapTgt src tgt)).map (fun p => p.1.id) := by
    intro hmem
    rcases List.mem_map.mp hmem with ⟨p, hp, hpid⟩
    rcases pairsByKey_mem hp with ⟨k, -, hS, -⟩
    exact hnoval createFallbackKey hkeyE k p.1 hS hpid
  have hnotF : b1.id ∉ (flexPairsOf (missingAfterOverlapSrc src tgt)
      (missingAfterOverlapTgt src tgt)).map (fun p => p.1.id) := by
    intro hmem
    rcases List.mem_map.mp hmem with ⟨p, hp, hpid⟩
    rcases pairsByKey_mem hp with ⟨k, -, hS, -⟩
    exact hnoval createFlexibleFallbackKey hkeyF k p.1 hS hpid
  have hb1mem : b1 ∈ missingAfterOverlapSrc src tgt := by
    rw [hsplit]
    simp
  have hmemFinal : b1 ∈ missingFinalSrcOf (missingAfterOverlapSrc src tgt)
      (missingAfterOverlapTgt src tgt) := by
    unfold missingFinalSrcOf
    refine List.mem_filter.mpr ⟨hb1mem, ?_⟩
    simp only [Bool.and_eq_true, Bool.not_eq_true', decide_eq_false_iff_not]
    exact ⟨hnotE, hnotF⟩
  have hcount : ∀ (keyf : Book → Option String) (ks : List String), ks.Nodup →
      ∀ k : String, ((pairsByKey keyf (missingAfterOverlapSrc src tgt)
        (missingAfterOverlapTgt src tgt) ks).filter
          fun p : Book × Book => decide (keyf p.1 = some k)).length ≤ 1 := by
    intro keyf ks hks k
    exact length_filter_le_one_of_nodup_map (fun p : Book × Book => keyf p.1) (some k) _
      (pairsByKey_keys_src_nodup keyf _ _ ks hks)
  exact ⟨fun k => hcount createFallbackKey _ (pairKeysBoth_nodup _ _ _) k,
    fun k => hcount createFlexibleFallbackKey _ (flexMatchedKeys_nodup _ _) k,
    hnotE, hnotF, hmemFinal⟩

def swA : Book := ⟨"A2", "ccc ddd", "alice aardvark", 5, 100⟩

def swB : Book := ⟨"B2", "ccc ddd", "bob builder", 5, 100⟩

def swT : Book := ⟨"T2", "ccc ddd", "tina turner", 5, 100⟩

theorem fallback_key_last_writer_wins_witness :
    (([swA, swB].map Book.id).Nodup ∧ ([swT].map Book.id).Nodup
      ∧ missingAfterOverlapSrc [swA, swB] [swT] = [] ++ swA :: [swB]
      ∧ swB ∈ [swB]
      ∧ normalizeTitle swA.title = normalizeTitle swB.title
      ∧ swA.duration = swB.duration ∧ swA.size = swB.size)
    ∧ (((compareServers [swA, swB] [swT]).fallback_exact).filter
        fun p : Book × Book => decide (createFallbackKey p.1 = some "ccc ddd|5|100")).length ≤ 1
    ∧ swA.id ∉ ((compareServers [swA, swB] [swT]).fallback_exact.map fun p => p.1.id)
    ∧ swA.id ∉ ((compareServers [swA, swB] [swT]).fallback_flexible.map fun p => p.1.id)
    ∧ swA ∈ (compareServers [swA, swB] [swT]).missing_in_target :=
  ⟨⟨by decide, by decide, by decide, by decide, by decide, by decide, by decide⟩,
    (fallback_key_last_writer_wins [swA, swB] [swT] (by decide) (by decide)
      [] [swB] swA swB (by decide) (by decide) (by decide) (by decide) (by decide)).1
      "ccc ddd|5|100",
    (fallback_key_last_writer_wins [swA, swB] [swT] (by decide) (by decide)
      [] [swB] swA swB (by decide) (by decide) (by decide) (by decide) (by decide)).2.2.1,
    (fallback_key_last_writer_wins [swA, swB] [swT] (by decide) (by decide)
      [] [swB] swA swB (by decide) (by decide) (by decide) (by decide) (by decide)).2.2.2.1,
    (fallback_key_last_writer_wins [swA, swB] [swT] (by decide) (by decide)
      [] [swB] swA swB (by decide) (by decide) (by decide) (by decide) (by decide)).2.2.2.2⟩

/-! ## Claim C5: download_file retry behaviour -/

/-- Claim C5: the specification says every failure of the archive-stream
step — a non-200 status as much as a raised exception — is retried up to
maxRetries times with 2^attempt backoff.  In the source (lines 218-221) the
non-200 branch sleeps the backoff but then returns False from inside the
loop body, so no further attempt happens; only the exception branch
continues the loop.  With the same behaviour — the first attempt fails, any
retry would succeed — a first-attempt non-200 ends after one attempt with
failure (having pointlessly slept the backoff), while a first-attempt
exception retries and succeeds. -/
theorem download_nonstatus_gives_up_after_one_attempt :
    downloadFile (fun n => if n = 0 then .badStatus else .ok) 3
      = { success := false, attemptsMade := 1, sleeps := [1] }
    ∧ downloadFile (fun n => if n = 0 then .exc else .ok) 3
      = { success := true, attemptsMade := 2, sleeps := [1] }
    ∧ downloadFile (fun _ => .exc) 3
      = { success := false, attemptsMade := 4, sleeps := [1, 2, 4] } := by
  decide

/-! ## Claim C6: connectivity failures on list calls -/

/-- A list-libraries failure: HTTP 500 with a payload that is dropped. -/
def c6FailLibs : ListResponse := .response 500 [⟨"lib1", "Main"⟩]

def c6Book : Book := ⟨"c6", "Some Title", "Some Author", 100, 200⟩

/-- A source server whose library listing fails with status 500 although
its item fetches would succeed. -/
def c6FailSrc : ServerModel := ⟨c6FailLibs, fun _ => [c6Book]⟩

/-- A healthy target server holding one book. -/
def c6Tgt : ServerModel := ⟨.response 200 [⟨"libT", "Books"⟩], fun _ => [c6Book]⟩

/-- Claim C6 counterexample: when the source's library listing returns
status 500, get_libraries swallows the failure and returns the empty list
(lines 85-92 log and return []), get_server_books yields an empty catalog,
and compare_servers silently proceeds, reporting source_total = 0 and the
target's entire catalog as missing_in_source — the reconciliation is not
aborted. -/
theorem connectivity_failure_swallowed_counterexample :
    getLibraries c6FailSrc.libsResponse = []
    ∧ getServerBooks c6FailSrc = []
    ∧ (compareFromServers c6FailSrc c6Tgt).source_total = 0
    ∧ (compareFromServers c6FailSrc c6Tgt).missing_in_source = [c6Book] := by
  decide

/-- Claim C6 (amended): a connectivity failure on the list-libraries call —
any non-200 status or a raised exception — is swallowed: get_libraries
returns the empty list, get_server_books returns an empty catalog, and
compare_servers proceeds with that empty catalog, producing a result whose
source_total is 0. -/
theorem connectivity_failure_yields_empty_catalog
    (r : ListResponse) (items : String → List Book) (tgt : ServerModel)
    (h : ∀ libs, r ≠ .response 200 libs) :
    getLibraries r = []
    ∧ getServerBooks ⟨r, items⟩ = []
    ∧ compareFromServers ⟨r, items⟩ tgt = compareServers [] (getServerBooks tgt)
    ∧ (compareFromServers ⟨r, items⟩ tgt).source_total = 0 := by
  have hlibs : getLibraries r = [] := by
    cases r with
    | response status libs =>
      have hs : status ≠ 200 := by
        intro hc
        exact h libs (by rw [hc])
      simp [getLibraries, hs]
    | raised => rfl
  have hbooks : getServerBooks ⟨r, items⟩ = [] := by
    simp [getServerBooks, hlibs]
  refine ⟨hlibs, hbooks, ?_, ?_⟩
  · rw [compareFromServers, hbooks]
  · rw [compareFromServers, hbooks, compareServers_srcTotal, List.length_nil]

theorem connectivity_failure_yields_empty_catalog_witness :
    getLibraries c6FailLibs = []
    ∧ getServerBooks ⟨c6FailLibs, c6FailSrc.itemsOf⟩ = []
    ∧ compareFromServers ⟨c6FailLibs, c6FailSrc.itemsOf⟩ c6Tgt
        = compareServers [] (getServerBooks c6Tgt)
    ∧ (compareFromServers ⟨c6FailLibs, c6FailSrc.itemsOf⟩ c6Tgt).source_total = 0 :=
  connectivity_failure_yields_empty_catalog c6FailLibs c6FailSrc.itemsOf c6Tgt
    (by intro libs hc; simp [c6FailLibs] at hc)

/-! ## Claim C7: pagination termination -/

/-- The pagination loop requests at most maxPagesConst + 1 - page further
pages, and every requested page number lies between the current page and
maxPagesConst. -/
theorem fetchPages_pages_bound (server : Nat → PageResp) (limit total : Nat) :
    ∀ (fuel : Nat) (allItems : List PageItem) (page : Nat),
      (fetchPages server limit total allItems page fuel).2.length ≤ maxPagesConst + 1 - page
      ∧ ∀ p ∈ (fetchPages server limit total allItems page fuel).2,
          page ≤ p ∧ p ≤ maxPagesConst := by
  intro fuel
  induction fuel with
  | zero =>
    intro allItems page
    exact ⟨by simp [fetchPages], by simp [fetchPages]⟩
  | succ fuel ih =>
    intro allItems page
    simp only [fetchPages]
    split
    case isFalse hc => simp
    case isTrue hc =>
      have hpage : page ≤ maxPagesConst := hc.1
      have hleaf : ∀ l : List PageItem,
          ((l, [page]) : List PageItem × List Nat).2.length ≤ maxPagesConst + 1 - page
          ∧ ∀ p ∈ ((l, [page]) : List PageItem × List Nat).2,
              page ≤ p ∧ p ≤ maxPagesConst := by
        intro l
        refine ⟨by simp; omega, ?_⟩
        intro p hp
        simp at hp
        subst hp
        exact ⟨Nat.le_refl _, hpage⟩
      split
      case isFalse hs => exact hleaf _
      case isTrue hs =>
        split
        case isTrue he => exact hleaf _
        case isFalse he =>
          split
          case isTrue hn => exact hleaf _
          case isFalse hn =>
            split
            case isTrue hshort => exact hleaf _
            case isFalse hshort =>
              split
              case isTrue htot => exact hleaf _
              case isFalse htot =>
                have h1 := (ih (allItems ++ newPageItems allItems (server page).items)
                  (page + 1)).1
                have h2 := (ih (allItems ++ newPageItems allItems (server page).items)
                  (page + 1)).2
                refine ⟨?_, ?_⟩
                · simp only [List.length_cons]
                  omega
                · intro p hp
                  simp only [List.mem_cons] at hp
                  rcases hp with rfl | hp
                  · exact ⟨Nat.le_refl _, hpage⟩
                  · exact ⟨Nat.le_of_succ_le (h2 p hp).1, (h2 p hp).2⟩

/-- Fuel at least maxPagesConst + 1 - page never runs out: any extra fuel
leaves the result of the pagination loop unchanged, so the loop's behaviour
is that of a while loop that always stops within the hard page bound. -/
theorem fetchPages_fuel_stable (server : Nat → PageResp) (limit total : Nat) :
    ∀ (fuel : Nat) (allItems : List PageItem) (page extra : Nat),
      maxPagesConst + 1 - page ≤ fuel →
      fetchPages server limit total allItems page (fuel + extra)
        = fetchPages server limit total allItems page fuel := by
  intro fuel
  induction fuel with
  | zero =>
    intro allItems page extra h
    have hp : ¬ page ≤ maxPagesConst := by omega
    cases extra with
    | zero => rfl
    | succ e =>
      rw [Nat.zero_add]
      simp [fetchPages, hp]
  | succ fuel ih =>
    intro allItems page extra h
    have hstep : fuel + 1 + extra = (fuel + extra) + 1 := by omega
    rw [hstep]
    simp only [fetchPages]
    split
    case isFalse hc => rfl
    case isTrue hc =>
      split
      case isFalse hs => rfl
      case isTrue hs =>
        split
        case isTrue he => rfl
        case isFalse he =>
          split
          case isTrue hn => rfl
          case isFalse hn =>
            split
            case isTrue hshort => rfl
            case isFalse hshort =>
              split
              case isTrue htot => rfl
              case isFalse htot =>
                rw [ih _ (page + 1) extra (by omega)]

/-- Once the accumulated item count has reached the reported total, the loop
makes no further request. -/
theorem fetchPages_stop_total (server : Nat → PageResp) (limit total : Nat)
    (allItems : List PageItem) (page fuel : Nat) (h : total ≤ allItems.length) :
    fetchPages server limit total allItems page fuel = (allItems, []) := by
  cases fuel with
  | zero => rfl
  | succ f =>
    have hlt : ¬ allItems.length < total := Nat.not_lt.mpr h
    simp [fetchPages, hlt]

/-- A 200 page whose items are all already collected (zero new items after
deduplicating by id) ends the loop right after that request. -/
theorem fetchPages_stop_nonew (server : Nat → PageResp) (limit total : Nat)
    (allItems : List PageItem) (page fuel : Nat)
    (hs : (server page).status = 200) (hne : (server page).items ≠ [])
    (hnew : newPageItems allItems (server page).items = [])
    (hpage : page ≤ maxPagesConst) (hlt : allItems.length < total) (hfuel : 0 < fuel) :
    fetchPages server limit total allItems page fuel = (allItems, [page]) := by
  cases fuel with
  | zero => exact absurd hfuel (by omega)
  | succ f =>
    simp only [fetchPages]
    rw [if_pos ⟨hpage, hlt⟩, if_pos hs,
      if_neg (fun hcon => hne (List.isEmpty_iff.mp hcon)), hnew]
    simp

/-- Claim C7: for every server behaviour, the pagination loop of
get_library_items terminates within the hard page bound maxPagesConst: it
requests at most maxPagesConst + 1 - page further pages, each within
[page, maxPagesConst]; fuel beyond maxPagesConst + 1 - page never changes
the result (the loop cannot run longer than the bound, so a server that
repeats its last page forever cannot cause an unbounded loop); the loop
stops at once when the accumulated count has reached the reported total;
and a page contributing zero new items (after id deduplication) is the last
request made. -/
theorem pagination_terminates_within_bound
    (server : Nat → PageResp) (limit total : Nat) (allItems : List PageItem)
    (page fuel extra : Nat) :
    ((fetchPages server limit total allItems page fuel).2.length ≤ maxPagesConst + 1 - page
      ∧ ∀ p ∈ (fetchPages server limit total allItems page fuel).2,
          page ≤ p ∧ p ≤ maxPagesConst)
    ∧ (maxPagesConst + 1 - page ≤ fuel →
        fetchPages server limit total allItems page (fuel + extra)
          = fetchPages server limit total allItems page fuel)
    ∧ (total ≤ allItems.length →
        fetchPages server limit total allItems page fuel = (allItems, []))
    ∧ ((server page).status = 200 → (server page).items ≠ [] →
        newPageItems allItems (server page).items = [] →
        page ≤ maxPagesConst → allItems.length < total → 0 < fuel →
        fetchPages server limit total allItems page fuel = (allItems, [page])) :=
  ⟨fetchPages_pages_bound server limit total fuel allItems page,
   fun h => fetchPages_fuel_stable server limit total fuel allItems page extra h,
   fun h => fetchPages_stop_total server limit total allItems page fuel h,
   fun hs hne hnew hpage hlt hfuel =>
     fetchPages_stop_nonew server limit total allItems page fuel hs hne hnew hpage hlt hfuel⟩

/-- A page payload of two items which the misbehaving server below repeats
forever. -/
def c7Page : PageResp := { status := 200, items := [⟨"i1"⟩, ⟨"i2"⟩], total := 100 }

/-- A server that returns the same page forever. -/
def c7Server : Nat → PageResp := fun _ => c7Page

theorem pagination_terminates_within_bound_witness :
    (fetchPages c7Server 2 100 c7Page.items 1 (maxPagesConst + 1)).2.length
        ≤ maxPagesConst + 1 - 1
    ∧ fetchPages c7Server 2 100 c7Page.items 1 (maxPagesConst + 1 + 5)
        = fetchPages c7Server 2 100 c7Page.items 1 (maxPagesConst + 1)
    ∧ fetchPages c7Server 2 2 c7Page.items 1 (maxPagesConst + 1) = (c7Page.items, [])
    ∧ fetchPages c7Server 2 100 c7Page.items 1 (maxPagesConst + 1)
        = (c7Page.items, [1]) :=
  ⟨(pagination_terminates_within_bound c7Server 2 100 c7Page.items 1
      (maxPagesConst + 1) 5).1.1,
   (pagination_terminates_within_bound c7Server 2 100 c7Page.items 1
      (maxPagesConst + 1) 5).2.1 (by decide),
   (pagination_terminates_within_bound c7Server 2 2 c7Page.items 1
      (maxPagesConst + 1) 0).2.2.1 (by decide),
   (pagination_terminates_within_bound c7Server 2 100 c7Page.items 1
      (maxPagesConst + 1) 5).2.2.2
     (by decide) (by decide) (by decide) (by decide) (by decide) (by decide)⟩

/-! ## Claim C8: batch download partial-failure accounting -/

/-- The as-completed gathering loop counts one success per task returning
True and one failure per task returning False or raising, never touching
the total. -/
theorem gatherResults_eq (total : Nat) (outs : List TaskOutcome) :
    gatherResults total outs
      = { total := total,
          success := outs.countP fun o => decide (o = TaskOutcome.ok),
          failed := outs.countP fun o => decide (o ≠ TaskOutcome.ok) } := by
  have h : ∀ (l : List TaskOutcome) (r : BatchResult),
      l.foldl
        (fun r o =>
          match o with
          | .ok => { r with success := r.success + 1 }
          | .failedResult => { r with failed := r.failed + 1 }
          | .raisedExc => { r with failed := r.failed + 1 })
        r
      = { total := r.total,
          success := r.success + l.countP fun o => decide (o = TaskOutcome.ok),
          failed := r.failed + l.countP fun o => decide (o ≠ TaskOutcome.ok) } := by
    intro l
    induction l with
    | nil => intro r; simp
    | cons o t iht =>
      intro r
      cases o <;> rw [List.foldl_cons, iht] <;>
        simp [List.countP_cons] <;> omega
  rw [gatherResults, h]
  simp

/-- Claim C8: for every book list, outcome assignment, and completion order
(asyncio.as_completed yields every task exactly once, so the completion
order is a permutation of the books), download_selected_books reports
total = the number of requested items, success = the number of items whose
task returned True, failed = the number whose task returned False or
raised — so one item's failure leaves every other item counted on its own
outcome, and success + failed = total. -/
theorem batch_counts_partition (books : List Book) (outcomeOf : Book → TaskOutcome)
    (completionOrder : List Book) (hperm : completionOrder.Perm books) :
    (downloadSelectedBooks books outcomeOf completionOrder).total = books.length
    ∧ (downloadSelectedBooks books outcomeOf completionOrder).success
        = (books.filter fun b => decide (outcomeOf b = TaskOutcome.ok)).length
    ∧ (downloadSelectedBooks books outcomeOf completionOrder).failed
        = (books.filter fun b => decide (outcomeOf b ≠ TaskOutcome.ok)).length
    ∧ (downloadSelectedBooks books outcomeOf completionOrder).success
        + (downloadSelectedBooks books outcomeOf completionOrder).failed
        = (downloadSelectedBooks books outcomeOf completionOrder).total := by
  have hcount : ∀ p : TaskOutcome → Bool,
      (completionOrder.map outcomeOf).countP p = (books.filter fun b => p (outcomeOf b)).length := by
    intro p
    rw [(hperm.map outcomeOf).countP_eq p, List.countP_map,
      List.countP_eq_length_filter]
    rfl
  by_cases hempty : books.isEmpty
  · have hnil : books = [] := List.isEmpty_iff.mp hempty
    have hord : completionOrder = [] := List.Perm.eq_nil (hnil ▸ hperm)
    subst hnil
    subst hord
    simp [downloadSelectedBooks]
  · have hds : downloadSelectedBooks books outcomeOf completionOrder
        = gatherResults books.length (completionOrder.map outcomeOf) := by
      rw [downloadSelectedBooks, if_neg hempty]
    have hpq : ∀ l : List Book,
        (l.filter fun b => decide (outcomeOf b = TaskOutcome.ok)).length
        + (l.filter fun b => decide (outcomeOf b ≠ TaskOutcome.ok)).length = l.length := by
      intro l
      induction l with
      | nil => rfl
      | cons b t iht =>
        by_cases hb : outcomeOf b = TaskOutcome.ok <;>
          simp [List.filter_cons, hb, decide_not] at iht ⊢ <;> omega
    rw [hds, gatherResults_eq, hcount, hcount]
    exact ⟨rfl, rfl, rfl, hpq books⟩

def c8Books : List Book :=
  [⟨"w1", "t", "a", 0, 0⟩, ⟨"w2", "t", "a", 0, 0⟩, ⟨"w3", "t", "a", 0, 0⟩]

/-- One task succeeds, one returns False, one raises. -/
def c8Outcome : Book → TaskOutcome := fun b =>
  if b.id = "w1" then .ok else if b.id = "w2" then .failedResult else .raisedExc

/-- A completion order different from the queue order. -/
def c8Order : List Book :=
  [⟨"w3", "t", "a", 0, 0⟩, ⟨"w1", "t", "a", 0, 0⟩, ⟨"w2", "t", "a", 0, 0⟩]

theorem batch_counts_partition_witness :
    c8Order.Perm c8Books
    ∧ (downloadSelectedBooks c8Books c8Outcome c8Order).total = c8Books.length
    ∧ (downloadSelectedBooks c8Books c8Outcome c8Order).success
        = (c8Books.filter fun b => decide (c8Outcome b = TaskOutcome.ok)).length
    ∧ (downloadSelectedBooks c8Books c8Outcome c8Order).failed
        = (c8Books.filter fun b => decide (c8Outcome b ≠ TaskOutcome.ok)).length
    ∧ (downloadSelectedBooks c8Books c8Outcome c8Order).success
        + (downloadSelectedBooks c8Books c8Outcome c8Order).failed
        = (downloadSelectedBooks c8Books c8Outcome c8Order).total :=
  ⟨by decide,
   (batch_counts_partition c8Books c8Outcome c8Order (by decide)).1,
   (batch_counts_partition c8Books c8Outcome c8Order (by decide)).2.1,
   (batch_counts_partition c8Books c8Outcome c8Order (by decide)).2.2.1,
   (batch_counts_partition c8Books c8Outcome c8Order (by decide)).2.2.2⟩
